import Mathlib

/-!
Verification of the timetable-optimization core of `iu-project-cs`.

The Python sources are shallowly embedded:

* A schedule (chromosome) `{day: {lesson: {class_id: (teacher_id, subject_id) | None}}}`
  becomes a total function `Sched : String → ℕ → ℕ → Option (ℕ × ℕ)`.
  The Python dicts hold exactly the keys `days × (1..lessons_per_day) × class ids`;
  functions that iterate `schedule[day][lesson].items()` here take the list of
  class ids (dict insertion order = the `classes` input order) as an argument.
* Python's global `random` is modelled by an explicit stream `Rng = ℕ → ℕ` that
  every stochastic primitive consumes from the front.  The primitives below
  return a value Python's counterparts could return (`choice` some element,
  `sample` a without-replacement selection, …); quantifying over all streams
  covers every outcome the Python code can produce.
* Floats are modelled by `ℝ` (the fitness score, which involves a square root)
  and `ℚ` (the `random.random()` draws compared against fixed thresholds).
-/

/-- A schedule cell content: `None` or `(teacher_id, subject_id)`. -/
abbrev Assignment := ℕ × ℕ

/-- A chromosome: day name → lesson slot → class id → optional assignment. -/
def Sched := String → ℕ → ℕ → Option Assignment

/-- Input entity: subject (`{id, name}`). -/
structure Subject where
  id : ℕ
  name : String
  deriving DecidableEq, Repr

/-- Input entity: teacher (`{id, name, subjects}`). -/
structure Teacher where
  id : ℕ
  name : String
  subjects : List ℕ
  deriving DecidableEq, Repr

/-- Input entity: class (`{id, name}`). -/
structure SchoolClass where
  id : ℕ
  name : String
  deriving DecidableEq, Repr

/-! ### The random-stream model -/

/-- The ambient pseudo-random source: an infinite stream of naturals. -/
def Rng := ℕ → ℕ

/-- Drop the first element of the stream. -/
def rngShift (r : Rng) : Rng := fun n => r (n + 1)

/-- Push a value on the front of the stream. -/
def rngCons (a : ℕ) (r : Rng) : Rng := fun n =>
  match n with
  | 0 => a
  | n + 1 => r n

/-- Model of `random.random()`: a rational in `[0, 1)`. -/
def randFloat (r : Rng) : ℚ × Rng := (((r 0 % 1000 : ℕ) : ℚ) / 1000, rngShift r)

/-- Model of `random.randint(a, b)` (inclusive bounds).  Python raises on an
empty range `b < a`; the callers below only use it on nonempty ranges. -/
def randint (a b : ℕ) (r : Rng) : ℕ × Rng := (a + r 0 % (b + 1 - a), rngShift r)

/-- Model of `random.choice(xs)`.  Python raises `IndexError` on `xs = []`;
the default `dflt` is only ever produced in that (unreachable) case. -/
def choiceD {α : Type} (xs : List α) (dflt : α) (r : Rng) : α × Rng :=
  (xs.getD (r 0 % xs.length) dflt, rngShift r)

/-- Model of `random.sample(xs, k)`: `k` draws without replacement, each pick
removing the chosen position.  (Python raises when `k > len(xs)`; this model
then simply stops early, a case no caller reaches.) -/
def sampleList {α : Type} : List α → ℕ → Rng → List α × Rng
  | _, 0, r => ([], r)
  | [], _ + 1, r => ([], r)
  | x :: xs, k + 1, r =>
      let i := r 0 % (x :: xs).length
      let chosen := (x :: xs).getD i x
      let rest := (x :: xs).eraseIdx i
      let out := sampleList rest k (rngShift r)
      (chosen :: out.1, out.2)

/-- Model of `random.shuffle` (used via `random.shuffle(shuffled_subjects)`):
a full-length sample without replacement. -/
def shuffleList {α : Type} (xs : List α) (r : Rng) : List α × Rng :=
  sampleList xs xs.length r

/-! ### Derived indices (`GeneticScheduler.__init__`) -/

/-- Model of the dict `teachers_by_id = {t["id"]: t for t in teachers}`:
on duplicate ids the last entry wins. -/
def teachersById (teachers : List Teacher) : ℕ → Option Teacher := fun tid =>
  teachers.reverse.find? (fun t => t.id = tid)

/-- Qualification lookup `teachers_by_id[tid]["subjects"]`.  Python raises
`KeyError` for an unknown id; this total model returns `[]` there (the claims
below never evaluate it at an unknown id, or compare both sides under the same
lookup). -/
def qualLookup (teachers : List Teacher) : ℕ → List ℕ := fun tid =>
  ((teachersById teachers tid).map Teacher.subjects).getD []

/-- Model of
`teachers_by_subject[subject["id"]] = [t for t in teachers if subject["id"] in t["subjects"]]`,
materialised for every subject id appearing in `subjects` and `[]`
(`dict.get(sid, [])`) elsewhere. -/
def buildTeachersBySubject (subjects : List Subject) (teachers : List Teacher) :
    ℕ → List Teacher := fun sid =>
  if subjects.any (fun s => s.id = sid) then
    teachers.filter (fun t => sid ∈ t.subjects)
  else []

/-! ### Fitness metrics (`src/services/ga/fitness_metrics.py`) -/

/-- The lesson slots `range(1, lessons_per_day + 1)`. -/
def slotsOf (lessons_per_day : ℕ) : List ℕ := List.range' 1 lessons_per_day

/-- The items of `schedule[day][lesson]`, in dict (= class input) order. -/
def cellsAt (s : Sched) (day : String) (lesson : ℕ) (classIds : List ℕ) :
    List (ℕ × Option Assignment) :=
  classIds.map (fun c => (c, s day lesson c))

/-- Inner loop of `count_teacher_conflicts` for one `(day, lesson)`:
walk the cells keeping the `teacher_assignments` dict (key = teacher id,
value = class id), adding 1 for a subject outside the teacher's qualification
list and 1 for a teacher id already seen in this slot. -/
def slotConflictLoop (tbid : ℕ → List ℕ) :
    List (ℕ × Option Assignment) → List (ℕ × ℕ) → ℕ
  | [], _ => 0
  | (_, none) :: rest, ta => slotConflictLoop tbid rest ta
  | (cid, some (t, sub)) :: rest, ta =>
      (if sub ∈ tbid t then 0 else 1) +
        (if ta.any (fun p => p.1 = t) then 1 + slotConflictLoop tbid rest ta
         else slotConflictLoop tbid rest (ta ++ [(t, cid)]))

/-- `count_teacher_conflicts`: double-booked teacher or unqualified subject. -/
def count_teacher_conflicts (s : Sched) (tbid : ℕ → List ℕ) (days : List String)
    (lessons_per_day : ℕ) (classIds : List ℕ) : ℕ :=
  (days.map (fun d =>
    ((slotsOf lessons_per_day).map (fun l =>
      slotConflictLoop tbid (cellsAt s d l classIds) [])).sum)).sum

/-- Sum of `slots[i+1] - slots[i] - 1` over consecutive pairs of an
ascending slot list (the source sorts first; the lists built below are
already ascending). -/
def gapsOfSorted : List ℕ → ℕ
  | a :: b :: rest => (b - a - 1) + gapsOfSorted (b :: rest)
  | _ => 0

/-- Slots (ascending) in which `tid` teaches some class on `day`
(the source's scan with `break` = existence over the slot's cells). -/
def lessonsTaught (s : Sched) (tid : ℕ) (day : String) (lessons_per_day : ℕ)
    (classIds : List ℕ) : List ℕ :=
  (slotsOf lessons_per_day).filter (fun l =>
    (cellsAt s day l classIds).any (fun p =>
      match p.2 with
      | some a => a.1 = tid
      | none => false))

/-- `count_teacher_gaps`: free lessons between a teacher's classes. -/
def count_teacher_gaps (s : Sched) (teachers : List Teacher) (days : List String)
    (lessons_per_day : ℕ) (classIds : List ℕ) : ℕ :=
  (teachers.map (fun t =>
    (days.map (fun d =>
      gapsOfSorted (lessonsTaught s t.id d lessons_per_day classIds))).sum)).sum

/-- Per-day non-empty-cell counts of one class. -/
def classDailyCounts (s : Sched) (cid : ℕ) (days : List String)
    (lessons_per_day : ℕ) : List ℕ :=
  days.map (fun d =>
    ((slotsOf lessons_per_day).filter (fun l => (s d l cid).isSome)).length)

/-- Population standard deviation of a list of counts (`variance ** 0.5`). -/
noncomputable def stddevOfCounts (counts : List ℕ) : ℝ :=
  let n : ℝ := counts.length
  let mean : ℝ := ((counts.map (fun x => (x : ℝ))).sum) / n
  let variance : ℝ := ((counts.map (fun x => ((x : ℝ) - mean) ^ 2)).sum) / n
  Real.sqrt variance

/-- `calculate_daily_imbalance`: sum of per-class std deviations
(the `if daily_counts:` guard skips the empty list). -/
noncomputable def calculate_daily_imbalance (s : Sched) (classes : List SchoolClass)
    (days : List String) (lessons_per_day : ℕ) : ℝ :=
  (classes.map (fun cls =>
    if classDailyCounts s cls.id days lessons_per_day = [] then 0
    else stddevOfCounts (classDailyCounts s cls.id days lessons_per_day))).sum

/-- `count_total_lessons`: non-empty cells over all days, slots and classes. -/
def count_total_lessons (s : Sched) (days : List String) (lessons_per_day : ℕ)
    (classIds : List ℕ) : ℕ :=
  (days.map (fun d =>
    ((slotsOf lessons_per_day).map (fun l =>
      ((cellsAt s d l classIds).filter (fun p => p.2.isSome)).length)).sum)).sum

/-- `count_min_daily_lessons_deficit`: missing lessons toward
`min_lessons_per_day` per class and day. -/
def count_min_daily_lessons_deficit (s : Sched) (classes : List SchoolClass)
    (days : List String) (lessons_per_day min_lessons_per_day : ℕ) : ℕ :=
  (classes.map (fun cls =>
    (days.map (fun d =>
      let day_count :=
        ((slotsOf lessons_per_day).filter (fun l => (s d l cls.id).isSome)).length
      if day_count < min_lessons_per_day then min_lessons_per_day - day_count
      else 0)).sum)).sum

/-! ### Scalar fitness (`calculate_schedule_fitness`) -/

/-- The sequential score pipeline of `calculate_schedule_fitness` before the
final clamp: `1000 - 100·tc - 2·tg - 1·imb + 0.5·tl - 80·mdd`. -/
noncomputable def fitness_raw (tc tg : ℕ) (imb : ℝ) (tl mdd : ℕ) : ℝ :=
  let score : ℝ := 1000
  let score := score - (tc : ℝ) * 100
  let score := score - (tg : ℝ) * 2
  let score := score - imb * 1
  let score := score + (tl : ℝ) * 0.5
  let score := score - (mdd : ℝ) * 80
  score

/-- The scalar combination including the final `max(0, score)` clamp. -/
noncomputable def fitness_combine (tc tg : ℕ) (imb : ℝ) (tl mdd : ℕ) : ℝ :=
  max 0 (fitness_raw tc tg imb tl mdd)

/-- `calculate_schedule_fitness` from `src/services/ga/fitness_metrics.py`:
note that it has no class-gap or early-gap term. -/
noncomputable def calculate_schedule_fitness (s : Sched) (days : List String)
    (lessons_per_day : ℕ) (teachers : List Teacher) (classes : List SchoolClass)
    (tbid : ℕ → List ℕ) (classIds : List ℕ) (min_lessons_per_day : ℕ) : ℝ :=
  fitness_combine
    (count_teacher_conflicts s tbid days lessons_per_day classIds)
    (count_teacher_gaps s teachers days lessons_per_day classIds)
    (calculate_daily_imbalance s classes days lessons_per_day)
    (count_total_lessons s days lessons_per_day classIds)
    (count_min_daily_lessons_deficit s classes days lessons_per_day
      min_lessons_per_day)

/-! The spec's claimed fitness formula additionally subtracts `10·class_gaps`
and `15·early_gaps`.  Those metrics exist in the legacy
`src/services/fitness_metrics.py`, embedded next so the claimed formula can be
stated and compared. -/

/-- `count_class_gaps` (legacy `src/services/fitness_metrics.py`). -/
def count_class_gaps (s : Sched) (classes : List SchoolClass) (days : List String)
    (lessons_per_day : ℕ) : ℕ :=
  (classes.map (fun cls =>
    (days.map (fun d =>
      gapsOfSorted
        ((slotsOf lessons_per_day).filter (fun l => (s d l cls.id).isSome)))).sum)).sum

/-- `count_early_gaps` (legacy `src/services/fitness_metrics.py`). -/
def count_early_gaps (s : Sched) (classes : List SchoolClass) (days : List String)
    (lessons_per_day : ℕ) : ℕ :=
  (classes.map (fun cls =>
    (days.map (fun d =>
      match (slotsOf lessons_per_day).find? (fun l => (s d l cls.id).isSome) with
      | some first_lesson => first_lesson - 1
      | none => 0)).sum)).sum

/-- The fitness formula exactly as the claim states it (spec §4.3), including
the `-10·class_gaps` and `-15·early_gaps` terms.  This definition follows the
spec's words, to be compared with `calculate_schedule_fitness` above. -/
noncomputable def specFitnessFormula (s : Sched) (days : List String)
    (lessons_per_day : ℕ) (teachers : List Teacher) (classes : List SchoolClass)
    (tbid : ℕ → List ℕ) (classIds : List ℕ) (min_lessons_per_day : ℕ) : ℝ :=
  max 0 (1000
    - 100 * (count_teacher_conflicts s tbid days lessons_per_day classIds : ℝ)
    - 2 * (count_teacher_gaps s teachers days lessons_per_day classIds : ℝ)
    - 10 * (count_class_gaps s classes days lessons_per_day : ℝ)
    - 15 * (count_early_gaps s classes days lessons_per_day : ℝ)
    - 1 * calculate_daily_imbalance s classes days lessons_per_day
    + 0.5 * (count_total_lessons s days lessons_per_day classIds : ℝ)
    - 80 * (count_min_daily_lessons_deficit s classes days lessons_per_day
        min_lessons_per_day : ℝ))

/-! ### C1 / C8: the scalar fitness formula -/

/-- Concrete teacher for the fitness counterexamples. -/
def exTeacherC1 : Teacher := ⟨1, "T", [10]⟩

/-- Concrete class for the fitness counterexamples. -/
def exClassC1 : SchoolClass := ⟨1, "1A"⟩

/-- One class with lessons at slots 1 and 3 on a single day: one class gap,
one teacher gap, no conflicts, no deficit, zero imbalance. -/
def exSchedC1 : Sched := fun d l c =>
  if d = "Monday" ∧ c = 1 ∧ (l = 1 ∨ l = 3) then some (1, 10) else none

theorem exSchedC1_imbalance :
    calculate_daily_imbalance exSchedC1 [exClassC1] ["Monday"] 3 = 0 := by
  have hcounts : classDailyCounts exSchedC1 1 ["Monday"] 3 = [2] := by decide
  simp only [calculate_daily_imbalance, exClassC1, hcounts, List.map_cons,
    List.map_nil, List.sum_cons, List.sum_nil]
  rw [if_neg (by simp)]
  simp only [stddevOfCounts, List.map_cons, List.map_nil, List.sum_cons,
    List.sum_nil, List.length_cons, List.length_nil]
  norm_num

/-- C1 (counterexample): on a schedule with one class gap, the maintained
fitness (`src/services/ga/fitness_metrics.py`, which has no class-gap or
early-gap penalty) evaluates to 999 while the spec's claimed formula gives
989, so the claimed formula does not describe the code. -/
theorem calculate_schedule_fitness_ne_spec_formula :
    calculate_schedule_fitness exSchedC1 ["Monday"] 3 [exTeacherC1] [exClassC1]
      (qualLookup [exTeacherC1]) [1] 2 ≠
    specFitnessFormula exSchedC1 ["Monday"] 3 [exTeacherC1] [exClassC1]
      (qualLookup [exTeacherC1]) [1] 2 := by
  have htc : count_teacher_conflicts exSchedC1 (qualLookup [exTeacherC1])
      ["Monday"] 3 [1] = 0 := by decide
  have htg : count_teacher_gaps exSchedC1 [exTeacherC1] ["Monday"] 3 [1] = 1 := by
    decide
  have hcg : count_class_gaps exSchedC1 [exClassC1] ["Monday"] 3 = 1 := by decide
  have heg : count_early_gaps exSchedC1 [exClassC1] ["Monday"] 3 = 0 := by decide
  have htl : count_total_lessons exSchedC1 ["Monday"] 3 [1] = 2 := by decide
  have hmdd : count_min_daily_lessons_deficit exSchedC1 [exClassC1]
      ["Monday"] 3 2 = 0 := by decide
  rw [calculate_schedule_fitness, specFitnessFormula, htc, htg, hcg, heg, htl,
    hmdd, exSchedC1_imbalance, fitness_combine, fitness_raw]
  norm_num

/-- C1 (amended): the closed form of the maintained fitness — 1000 minus 100
per teacher conflict, minus 2 per teacher gap, minus 1 per unit of daily
imbalance, plus 0.5 per lesson, minus 80 per unit of minimum-daily deficit,
clamped below at 0; there is no class-gap or early-gap term. -/
theorem calculate_schedule_fitness_closed_form (s : Sched) (days : List String)
    (L : ℕ) (teachers : List Teacher) (classes : List SchoolClass)
    (tbid : ℕ → List ℕ) (classIds : List ℕ) (minL : ℕ) :
    calculate_schedule_fitness s days L teachers classes tbid classIds minL =
    max 0 (1000
      - 100 * (count_teacher_conflicts s tbid days L classIds : ℝ)
      - 2 * (count_teacher_gaps s teachers days L classIds : ℝ)
      - 1 * calculate_daily_imbalance s classes days L
      + 0.5 * (count_total_lessons s days L classIds : ℝ)
      - 80 * (count_min_daily_lessons_deficit s classes days L minL : ℝ)) := by
  rw [calculate_schedule_fitness, fitness_combine, fitness_raw]
  congr 1
  ring

/-- C8 (counterexample): the per-component slopes fail once the `max(0, ·)`
clamp binds — at 11 teacher conflicts the score is 0, equal to the score at
10 conflicts, not 100 below it. -/
theorem fitness_combine_clamped_not_linear :
    ¬ (fitness_combine (10 + 1) 0 0 0 0 = fitness_combine 10 0 0 0 0 - 100) := by
  have h1 : fitness_raw 11 0 0 0 0 = -100 := by
    rw [fitness_raw]; norm_num
  have h2 : fitness_raw 10 0 0 0 0 = 0 := by
    rw [fitness_raw]; norm_num
  rw [show (10 + 1 : ℕ) = 11 from rfl, fitness_combine, fitness_combine, h1, h2]
  norm_num

/-- C8 (amended): holding the other metrics fixed, one extra teacher conflict
lowers the score by exactly 100 as long as the lowered pre-clamp score is
still nonnegative, and one extra lesson raises it by exactly 0.5 as long as
the pre-clamp score before the increase is nonnegative; outside those ranges
the `max(0, ·)` clamp absorbs the change. -/
theorem fitness_combine_increment_effects (tc tg : ℕ) (imb : ℝ) (tl mdd : ℕ) :
    (0 ≤ fitness_raw (tc + 1) tg imb tl mdd →
      fitness_combine (tc + 1) tg imb tl mdd =
        fitness_combine tc tg imb tl mdd - 100) ∧
    (0 ≤ fitness_raw tc tg imb tl mdd →
      fitness_combine tc tg imb (tl + 1) mdd =
        fitness_combine tc tg imb tl mdd + 0.5) := by
  have hraw_tc : fitness_raw (tc + 1) tg imb tl mdd =
      fitness_raw tc tg imb tl mdd - 100 := by
    rw [fitness_raw, fitness_raw]; push_cast; ring
  have hraw_tl : fitness_raw tc tg imb (tl + 1) mdd =
      fitness_raw tc tg imb tl mdd + 0.5 := by
    rw [fitness_raw, fitness_raw]; push_cast; ring
  constructor
  · intro h
    have h0 : 0 ≤ fitness_raw tc tg imb tl mdd := by
      rw [hraw_tc] at h; linarith
    rw [fitness_combine, fitness_combine, max_eq_right h, max_eq_right h0,
      hraw_tc]
  · intro h
    have h1 : 0 ≤ fitness_raw tc tg imb (tl + 1) mdd := by
      rw [hraw_tl]; linarith
    rw [fitness_combine, fitness_combine, max_eq_right h1, max_eq_right h,
      hraw_tl]

/-- Witness for `fitness_combine_increment_effects` at
`tc = tg = tl = mdd = 0`, `imb = 0`. -/
theorem fitness_combine_increment_effects_witness :
    (0 ≤ fitness_raw (0 + 1) 0 0 0 0 ∧ 0 ≤ fitness_raw 0 0 0 0 0) ∧
    (fitness_combine (0 + 1) 0 0 0 0 = fitness_combine 0 0 0 0 0 - 100 ∧
     fitness_combine 0 0 0 (0 + 1) 0 = fitness_combine 0 0 0 0 0 + 0.5) := by
  have ha : (0 : ℝ) ≤ fitness_raw (0 + 1) 0 0 0 0 := by rw [fitness_raw]; norm_num
  have hb : (0 : ℝ) ≤ fitness_raw 0 0 0 0 0 := by rw [fitness_raw]; norm_num
  exact ⟨⟨ha, hb⟩, (fitness_combine_increment_effects 0 0 0 0 0).1 ha,
    (fitness_combine_increment_effects 0 0 0 0 0).2 hb⟩

/-! ### Compaction engine (`src/services/ga/schedule_compaction.py`) -/

/-- Does this cell hold teacher `t`? -/
def cellUsesTeacher (o : Option Assignment) (t : ℕ) : Bool :=
  match o with
  | some a => a.1 == t
  | none => false

/-- The conflict check of `try_compact_placement`: some class other than
`cid` uses teacher `t` at `(day, slot)`. -/
def teacherBusyAt (s : Sched) (day : String) (slot cid t : ℕ)
    (classIds : List ℕ) : Bool :=
  classIds.any (fun c => (c != cid) && cellUsesTeacher (s day slot c) t)

/-- Scan `range(next_slot, lessons_per_day + 1)` for the first slot whose
teacher check passes. -/
def findFreeSlot (s : Sched) (day : String) (cid t next L : ℕ)
    (classIds : List ℕ) : Option ℕ :=
  (List.range' next (L + 1 - next)).find?
    (fun l => !(teacherBusyAt s day l cid t classIds))

/-- Greedy placement loop of `try_compact_placement`: place each lesson at
the first conflict-free slot at or after `next`; `none` models the
`return []` failure path. -/
def placeLessons (s : Sched) (day : String) (cid L : ℕ) (classIds : List ℕ) :
    List (ℕ × Assignment) → ℕ → Option (List (ℕ × Assignment))
  | [], _ => some []
  | (_, a) :: rest, next =>
      match findFreeSlot s day cid a.1 next L classIds with
      | none => none
      | some l =>
          match placeLessons s day cid L classIds rest (l + 1) with
          | none => none
          | some p => some ((l, a) :: p)

/-- `try_compact_placement`: the greedy placement, `[]` on failure
(as in the source, where the empty list encodes failure). -/
def try_compact_placement (s : Sched) (day : String) (cid : ℕ)
    (lessons_data : List (ℕ × Assignment)) (L : ℕ) (classIds : List ℕ) :
    List (ℕ × Assignment) :=
  (placeLessons s day cid L classIds lessons_data 1).getD []

/-- The non-empty lessons of class `cid` on `day`, in ascending slot order
(`lessons_data` in the source; the source's subsequent sort is a no-op). -/
def lessonsData (s : Sched) (day : String) (cid L : ℕ) :
    List (ℕ × Assignment) :=
  (slotsOf L).filterMap (fun l => (s day l cid).map (fun a => (l, a)))

/-- Clear all slots `1..L` of class `cid` on `day`. -/
def clearClassDay (s : Sched) (day : String) (cid L : ℕ) : Sched :=
  fun d l c => if d = day ∧ c = cid ∧ 1 ≤ l ∧ l ≤ L then none else s d l c

/-- Write a placement for class `cid` on `day` on top of a schedule
(each `(slot, assignment)` pair becomes that cell's value). -/
def writePlacement (s : Sched) (day : String) (cid : ℕ)
    (p : List (ℕ × Assignment)) : Sched :=
  fun d l c =>
    if d = day ∧ c = cid then
      match p.find? (fun q => q.1 == l) with
      | some q => some q.2
      | none => s d l c
    else s d l c

/-- Python's `max` over a nonempty slot list (0 for `[]`, a case the source
never reaches). -/
def slotListMax : List ℕ → ℕ
  | [] => 0
  | a :: rest => rest.foldl max a

/-- Python's `min` over a nonempty slot list; since placement slots are
strictly increasing, `min(placement)[0]` is the minimum of the slots. -/
def slotListMin : List ℕ → ℕ
  | [] => 0
  | a :: rest => rest.foldl min a

/-- One `(class, day)` iteration of the `compact_schedule_full` loop body.
Returns the updated schedule and this step's contribution to `improved`. -/
def compactClassDayStep (s : Sched) (day : String) (cid L : ℕ)
    (classIds : List ℕ) : Sched × Bool :=
  let ld := lessonsData s day cid L
  if ld.isEmpty then (s, false)
  else if ld.map Prod.fst = List.range' 1 ld.length then (s, false)
  else
    let cleared := clearClassDay s day cid L
    let p1 := try_compact_placement cleared day cid ld L classIds
    let p2 := try_compact_placement cleared day cid ld.reverse L classIds
    let cand1 : ℕ × List (ℕ × Assignment) :=
      if p1 ≠ [] ∧ slotListMax (p1.map Prod.fst) < L + 1
      then (slotListMax (p1.map Prod.fst), p1) else (L + 1, [])
    let cand2 : ℕ × List (ℕ × Assignment) :=
      if p2 ≠ [] ∧ slotListMax (p2.map Prod.fst) < cand1.1
      then (slotListMax (p2.map Prod.fst), p2) else cand1
    let best := cand2.2
    if best = [] then (writePlacement cleared day cid ld, false)
    else
      (writePlacement cleared day cid best,
        decide (slotListMin (best.map Prod.fst) < slotListMin (ld.map Prod.fst)))

/-- One full pass of `compact_schedule_full`: every class, every day,
accumulating the `improved` flag. -/
def compactPass (s : Sched) (days : List String) (L : ℕ)
    (classes : List SchoolClass) : Sched × Bool :=
  classes.foldl (fun acc cls =>
    days.foldl (fun acc2 day =>
      let step := compactClassDayStep acc2.1 day cls.id L
        (classes.map SchoolClass.id)
      (step.1, acc2.2 || step.2)) acc) (s, false)

/-- `compact_schedule_full`: up to three passes with early exit when a pass
reports no improvement. -/
def compact_schedule_full (s : Sched) (days : List String) (L : ℕ)
    (classes : List SchoolClass) : Sched :=
  let pass1 := compactPass s days L classes
  if pass1.2 = false then pass1.1
  else
    let pass2 := compactPass pass1.1 days L classes
    if pass2.2 = false then pass2.1
    else (compactPass pass2.1 days L classes).1

/-! ### Compaction: structural lemmas -/

theorem filterMap_tag_fst_sublist {β : Type} (f : ℕ → Option β) :
    ∀ l : List ℕ,
      ((l.filterMap (fun x => (f x).map (fun a => (x, a)))).map Prod.fst).Sublist l
  | [] => by simp
  | x :: l => by
    cases hfx : f x with
    | none =>
        simp only [List.filterMap_cons, hfx]
        exact (filterMap_tag_fst_sublist f l).trans (List.sublist_cons_self x l)
    | some a =>
        simp only [List.filterMap_cons, hfx, Option.map_some', List.map_cons]
        exact (filterMap_tag_fst_sublist f l).cons₂ x

theorem lessonsData_fst_sublist (s : Sched) (day : String) (cid L : ℕ) :
    ((lessonsData s day cid L).map Prod.fst).Sublist (slotsOf L) :=
  filterMap_tag_fst_sublist _ _

theorem slotsOf_pairwise (L : ℕ) : (slotsOf L).Pairwise (· < ·) := by
  simpa [slotsOf] using List.pairwise_lt_range' 1 L

theorem lessonsData_fst_pairwise (s : Sched) (day : String) (cid L : ℕ) :
    ((lessonsData s day cid L).map Prod.fst).Pairwise (· < ·) :=
  (slotsOf_pairwise L).sublist (lessonsData_fst_sublist s day cid L)

theorem mem_slotsOf {l L : ℕ} : l ∈ slotsOf L ↔ 1 ≤ l ∧ l ≤ L := by
  simp only [slotsOf, List.mem_range'_1]
  omega

theorem lessonsData_mem_slot {s : Sched} {day : String} {cid L : ℕ} {q} 
    (hq : q ∈ lessonsData s day cid L) : q.1 ∈ slotsOf L := by
  have : q.1 ∈ (lessonsData s day cid L).map Prod.fst := List.mem_map_of_mem _ hq
  exact (lessonsData_fst_sublist s day cid L).mem this

theorem mem_lessonsData {s : Sched} {day : String} {cid L l : ℕ} {a : Assignment} :
    (l, a) ∈ lessonsData s day cid L ↔ l ∈ slotsOf L ∧ s day l cid = some a := by
  simp only [lessonsData, List.mem_filterMap, Option.map_eq_some']
  constructor
  · rintro ⟨x, hx, b, hb, heq⟩
    obtain ⟨rfl, rfl⟩ := Prod.mk.injEq .. ▸ heq
    exact ⟨hx, hb⟩
  · rintro ⟨hl, hb⟩
    exact ⟨l, hl, a, hb, rfl⟩

theorem find_filterMap_tag {β : Type} (f : ℕ → Option β) :
    ∀ (xs : List ℕ), xs.Pairwise (· < ·) → ∀ l ∈ xs,
      (xs.filterMap (fun x => (f x).map (fun a => (x, a)))).find?
        (fun q => q.1 == l) = (f l).map (fun a => (l, a))
  | [], _, l, hl => by simp at hl
  | x :: xs, hpw, l, hl => by
    have hx : ∀ y ∈ xs, x < y := (List.pairwise_cons.mp hpw).1
    have hpw' : xs.Pairwise (· < ·) := (List.pairwise_cons.mp hpw).2
    rcases List.mem_cons.mp hl with rfl | hl'
    · cases hfx : f l with
      | none =>
          simp only [List.filterMap_cons, hfx]
          rw [List.find?_eq_none.mpr, Option.map_none']
          intro q hq
          have hq1 : q.1 ∈ xs :=
            (filterMap_tag_fst_sublist f xs).mem (List.mem_map_of_mem _ hq)
          have := hx _ hq1
          simp only [beq_iff_eq]
          omega
      | some a =>
          simp only [List.filterMap_cons, hfx, Option.map_some']
          rw [List.find?_cons_of_pos]
          simp
    · cases hfx : f x with
      | none =>
          simp only [List.filterMap_cons, hfx]
          exact find_filterMap_tag f xs hpw' l hl'
      | some a =>
          simp only [List.filterMap_cons, hfx, Option.map_some']
          rw [List.find?_cons_of_neg, find_filterMap_tag f xs hpw' l hl']
          have := hx _ hl'
          simp only [beq_iff_eq]
          omega

theorem lessonsData_find? (s : Sched) (day : String) (cid L : ℕ) {l : ℕ}
    (hl : l ∈ slotsOf L) :
    (lessonsData s day cid L).find? (fun q => q.1 == l) =
      (s day l cid).map (fun a => (l, a)) :=
  find_filterMap_tag _ _ (slotsOf_pairwise L) l hl

/-- Writing a class-day's own `lessons_data` back over the cleared schedule
restores the schedule exactly (the source's rollback branch). -/
theorem writePlacement_restore (s : Sched) (day : String) (cid L : ℕ) :
    writePlacement (clearClassDay s day cid L) day cid
      (lessonsData s day cid L) = s := by
  funext d l c
  show (if d = day ∧ c = cid then _ else _) = s d l c
  by_cases hdc : d = day ∧ c = cid
  · obtain ⟨rfl, rfl⟩ := hdc
    rw [if_pos ⟨rfl, rfl⟩]
    by_cases hl : l ∈ slotsOf L
    · rw [lessonsData_find? s d c L hl]
      cases hcell : s d l c with
      | none =>
          simp only [hcell, Option.map_none']
          show clearClassDay s d c L d l c = none
          rw [clearClassDay, if_pos ⟨rfl, ⟨rfl, (mem_slotsOf.mp hl)⟩⟩]
      | some a => simp [hcell]
    · rw [List.find?_eq_none.mpr]
      · show clearClassDay s d c L d l c = s d l c
        rw [clearClassDay, if_neg]
        rintro ⟨-, -, h1, h2⟩
        exact hl (mem_slotsOf.mpr ⟨h1, h2⟩)
      · intro q hq
        have := lessonsData_mem_slot hq
        simp only [beq_iff_eq]
        intro heq
        exact hl (heq ▸ this)
  · rw [if_neg hdc]
    show clearClassDay s day cid L d l c = s d l c
    rw [clearClassDay, if_neg]
    rintro ⟨rfl, rfl, -⟩
    exact hdc ⟨rfl, rfl⟩

/-- The conflict check ignores class `cid`, so clearing `cid`'s cells does not
change it. -/
theorem teacherBusyAt_clear (s : Sched) (day d : String) (slot cid t L : ℕ)
    (ids : List ℕ) :
    teacherBusyAt (clearClassDay s day cid L) d slot cid t ids =
      teacherBusyAt s d slot cid t ids := by
  unfold teacherBusyAt
  congr 1
  funext c
  by_cases hc : c = cid
  · simp [hc]
  · have h : clearClassDay s day cid L d slot c = s d slot c := by
      rw [clearClassDay, if_neg]
      rintro ⟨-, rfl, -⟩
      exact hc rfl
    rw [h]

theorem findFreeSlot_spec {s : Sched} {day : String} {cid t next L : ℕ}
    {ids : List ℕ} {l : ℕ} (h : findFreeSlot s day cid t next L ids = some l) :
    next ≤ l ∧ l ≤ L ∧ teacherBusyAt s day l cid t ids = false := by
  have hmem := List.mem_of_find?_eq_some h
  have hpred := List.find?_some h
  have hrange := List.mem_range'_1.mp hmem
  refine ⟨hrange.1, by omega, ?_⟩
  simpa using hpred

theorem placeLessons_spec {s : Sched} {day : String} {cid L : ℕ} {ids : List ℕ} :
    ∀ {ld : List (ℕ × Assignment)} {next : ℕ} {p : List (ℕ × Assignment)},
      placeLessons s day cid L ids ld next = some p →
      p.map Prod.snd = ld.map Prod.snd ∧
      (∀ q ∈ p, next ≤ q.1 ∧ q.1 ≤ L ∧
        teacherBusyAt s day q.1 cid q.2.1 ids = false) ∧
      (p.map Prod.fst).Pairwise (· < ·)
  | [], next, p => by
      intro h
      simp only [placeLessons, Option.some.injEq] at h
      subst h
      simp
  | (m, a) :: rest, next, p => by
      intro h
      simp only [placeLessons] at h
      cases hfind : findFreeSlot s day cid a.1 next L ids with
      | none => rw [hfind] at h; exact absurd h (by simp)
      | some l =>
          rw [hfind] at h
          dsimp only at h
          cases hrec : placeLessons s day cid L ids rest (l + 1) with
          | none => rw [hrec] at h; exact absurd h (by simp)
          | some p' =>
              rw [hrec] at h
              simp only [Option.some.injEq] at h
              subst h
              obtain ⟨hsnd, hmem, hpw⟩ := placeLessons_spec hrec
              obtain ⟨hnl, hlL, hbusy⟩ := findFreeSlot_spec hfind
              refine ⟨by simp [hsnd], ?_, ?_⟩
              · intro q hq2
                rcases List.mem_cons.mp hq2 with rfl | hq3
                · exact ⟨hnl, hlL, hbusy⟩
                · obtain ⟨h1, h2, h3⟩ := hmem q hq3
                  exact ⟨by omega, h2, h3⟩
              · rw [List.map_cons, List.pairwise_cons]
                refine ⟨?_, hpw⟩
                intro y hy
                obtain ⟨q, hq, rfl⟩ := List.mem_map.mp hy
                have := (hmem q hq).1
                omega

theorem placeLessons_length {s : Sched} {day : String} {cid L : ℕ}
    {ids : List ℕ} {ld : List (ℕ × Assignment)} {next : ℕ}
    {p : List (ℕ × Assignment)}
    (h : placeLessons s day cid L ids ld next = some p) :
    p.length = ld.length := by
  have := (placeLessons_spec h).1
  have h1 := congrArg List.length this
  simpa using h1

theorem range'_filterMap_find_eq {β : Type} :
    ∀ (n lo : ℕ) (p : List (ℕ × β)),
      (p.map Prod.fst).Pairwise (· < ·) →
      (∀ q ∈ p, lo ≤ q.1 ∧ q.1 < lo + n) →
      (List.range' lo n).filterMap
        (fun l => (p.find? (fun q => q.1 == l)).map (fun q => (l, q.2))) = p
  | 0, lo, p, _, hbnd => by
      cases p with
      | nil => simp
      | cons q p' =>
          have := hbnd q (by simp)
          omega
  | n + 1, lo, p, hpw, hbnd => by
      rw [List.range'_succ, List.filterMap_cons]
      cases p with
      | nil =>
          simp only [List.find?_nil, Option.map_none']
          exact range'_filterMap_find_eq n (lo + 1) [] (by simp) (by simp)
      | cons q p' =>
          have hq := hbnd q (by simp)
          have hqtail : ∀ y ∈ p'.map Prod.fst, q.1 < y :=
            (List.pairwise_cons.mp (by simpa using hpw)).1
          rcases Nat.lt_or_ge lo q.1 with hlt | hge
          · -- no element has slot `lo`
            have hnone : (q :: p').find? (fun r => r.1 == lo) = none := by
              rw [List.find?_eq_none]
              intro r hr
              simp only [beq_iff_eq]
              rcases List.mem_cons.mp hr with rfl | hr'
              · omega
              · have := hqtail r.1 (List.mem_map_of_mem _ hr')
                omega
            rw [hnone, Option.map_none']
            exact range'_filterMap_find_eq n (lo + 1) (q :: p') hpw
              (by
                intro r hr
                have := hbnd r hr
                rcases List.mem_cons.mp hr with rfl | hr'
                · omega
                · have := hqtail r.1 (List.mem_map_of_mem _ hr')
                  omega)
          · -- `q.1 = lo`: the head is produced here
            have hqlo : q.1 = lo := by omega
            have hhead : (q :: p').find? (fun r => r.1 == lo) = some q := by
              rw [List.find?_cons_of_pos]
              simp [hqlo]
            rw [hhead, Option.map_some']
            dsimp only
            have : (lo, q.2) = q := by
              cases q
              simp_all
            rw [this]
            congr 1
            have hcongr : ∀ l ∈ List.range' (lo + 1) n,
                ((q :: p').find? (fun r => r.1 == l)).map (fun r => (l, r.2)) =
                (p'.find? (fun r => r.1 == l)).map (fun r => (l, r.2)) := by
              intro l hl
              have hllo : lo < l := (List.mem_range'_1.mp hl).1
              rw [List.find?_cons_of_neg]
              simp only [beq_iff_eq]
              omega
            rw [List.filterMap_congr (by
              intro l hl
              exact hcongr l hl)]
            exact range'_filterMap_find_eq n (lo + 1) p'
              ((List.pairwise_cons.mp (by simpa using hpw)).2)
              (by
                intro r hr
                have h1 := hbnd r (by simp [hr])
                have h2 := hqtail r.1 (List.mem_map_of_mem _ hr)
                omega)

/-- Reading back a sorted in-range placement from the written schedule gives
exactly the placement. -/
theorem writePlacement_lessonsData (s : Sched) (day : String) (cid L : ℕ)
    (p : List (ℕ × Assignment))
    (hpw : (p.map Prod.fst).Pairwise (· < ·))
    (hmem : ∀ q ∈ p, 1 ≤ q.1 ∧ q.1 ≤ L) :
    lessonsData (writePlacement (clearClassDay s day cid L) day cid p)
      day cid L = p := by
  unfold lessonsData
  have hpt : ∀ l ∈ slotsOf L,
      (writePlacement (clearClassDay s day cid L) day cid p day l cid).map
        (fun a => (l, a)) =
      (p.find? (fun q => q.1 == l)).map (fun q => (l, q.2)) := by
    intro l hl
    rw [writePlacement]
    rw [if_pos ⟨rfl, rfl⟩]
    cases hfind : p.find? (fun q => q.1 == l) with
    | none =>
        simp only [Option.map_none']
        have : clearClassDay s day cid L day l cid = none := by
          rw [clearClassDay, if_pos ⟨rfl, rfl, mem_slotsOf.mp hl⟩]
        simp [this]
    | some q => simp
  rw [List.filterMap_congr hpt]
  exact range'_filterMap_find_eq L 1 p hpw
    (by intro q hq; have := hmem q hq; omega)

/-- A class-day compaction write does not touch any other cell. -/
theorem writePlacement_clear_other (s : Sched) (day : String) (cid L : ℕ)
    (p : List (ℕ × Assignment)) (d : String) (l c : ℕ)
    (h : ¬(d = day ∧ c = cid)) :
    writePlacement (clearClassDay s day cid L) day cid p d l c = s d l c := by
  rw [writePlacement, if_neg h, clearClassDay, if_neg]
  rintro ⟨rfl, rfl, -⟩
  exact h ⟨rfl, rfl⟩

/-! ### Conflict counting: decomposition into qualification and duplication -/

/-- Teacher ids of the non-empty cells of a slot, in cell order. -/
def cellTeachersList (cells : List (ℕ × Option Assignment)) : List ℕ :=
  cells.filterMap (fun p => p.2.map Prod.fst)

/-- Penalty of one assignment's qualification check. -/
def qualPenalty (tbid : ℕ → List ℕ) (a : Assignment) : ℕ :=
  if a.2 ∈ tbid a.1 then 0 else 1

/-- Total qualification penalty of a slot's cells. -/
def qualCount (tbid : ℕ → List ℕ) (cells : List (ℕ × Option Assignment)) : ℕ :=
  ((cells.filterMap (fun p => p.2)).map (qualPenalty tbid)).sum

/-- Count of elements already seen (either earlier in the list or in the
initial key set) — the double-booking part of the conflict loop. -/
def dupAux : List ℕ → List ℕ → ℕ
  | [], _ => 0
  | t :: ts, ks => if t ∈ ks then 1 + dupAux ts ks else dupAux ts (ks ++ [t])

/-- Double-booking count of a teacher list. -/
def dupCount (ts : List ℕ) : ℕ := dupAux ts []

theorem slotConflictLoop_decomp (tbid : ℕ → List ℕ) :
    ∀ (cells : List (ℕ × Option Assignment)) (ta : List (ℕ × ℕ)),
      slotConflictLoop tbid cells ta =
        qualCount tbid cells + dupAux (cellTeachersList cells) (ta.map Prod.fst)
  | [], ta => by simp [slotConflictLoop, qualCount, cellTeachersList, dupAux]
  | (cid, none) :: rest, ta => by
      simp only [slotConflictLoop, qualCount, cellTeachersList,
        List.filterMap_cons, Option.map_none']
      exact slotConflictLoop_decomp tbid rest ta
  | (cid, some (t, sub)) :: rest, ta => by
      simp only [slotConflictLoop, qualCount, cellTeachersList,
        List.filterMap_cons, Option.map_some', List.map_cons, List.sum_cons]
      have hmem : (ta.any (fun p => decide (p.1 = t)) = true) ↔ t ∈ ta.map Prod.fst := by
        simp
      have hqp : (if sub ∈ tbid t then 0 else 1) = qualPenalty tbid (t, sub) := rfl
      by_cases ht : t ∈ ta.map Prod.fst
      · rw [if_pos (hmem.mpr ht), dupAux, if_pos ht,
          slotConflictLoop_decomp tbid rest ta, hqp]
        simp only [qualCount, cellTeachersList]
        omega
      · rw [if_neg (fun hc => ht (hmem.mp hc)), dupAux, if_neg ht,
          slotConflictLoop_decomp tbid rest (ta ++ [(t, cid)]), hqp,
          List.map_append]
        simp only [qualCount, cellTeachersList, List.map_cons, List.map_nil]
        omega

theorem dupAux_eq_length_sub_card :
    ∀ (ts ks : List ℕ),
      dupAux ts ks = ts.length - (ts.toFinset \ ks.toFinset).card
  | [], ks => by simp [dupAux]
  | t :: ts, ks => by
      have hcardle : (ts.toFinset \ ks.toFinset).card ≤ ts.length :=
        le_trans (Finset.card_le_card (Finset.sdiff_subset))
          ts.toFinset_card_le
      by_cases h : t ∈ ks
      · rw [dupAux, if_pos h, dupAux_eq_length_sub_card ts ks]
        have hins : (t :: ts).toFinset \ ks.toFinset =
            ts.toFinset \ ks.toFinset := by
          ext x
          simp only [List.toFinset_cons, Finset.mem_sdiff, Finset.mem_insert,
            List.mem_toFinset]
          constructor
          · rintro ⟨rfl | hx, hnk⟩
            · exact absurd h hnk
            · exact ⟨hx, hnk⟩
          · rintro ⟨hx, hnk⟩
            exact ⟨Or.inr hx, hnk⟩
        rw [hins]
        simp only [List.length_cons]
        omega
      · rw [dupAux, if_neg h, dupAux_eq_length_sub_card ts (ks ++ [t])]
        have hks : (ks ++ [t]).toFinset = insert t ks.toFinset := by
          ext x
          simp [or_comm]
        rw [hks]
        simp only [List.toFinset_cons, List.length_cons]
        by_cases ht : t ∈ ts.toFinset
        · have e1 : insert t ts.toFinset \ ks.toFinset =
              ts.toFinset \ ks.toFinset := by
            ext x
            simp only [Finset.mem_sdiff, Finset.mem_insert]
            constructor
            · rintro ⟨rfl | hx, hnk⟩
              · exact ⟨ht, hnk⟩
              · exact ⟨hx, hnk⟩
            · rintro ⟨hx, hnk⟩
              exact ⟨Or.inr hx, hnk⟩
          have e2 : ts.toFinset \ insert t ks.toFinset =
              (ts.toFinset \ ks.toFinset).erase t := by
            ext x
            simp only [Finset.mem_sdiff, Finset.mem_insert, Finset.mem_erase]
            constructor
            · rintro ⟨hx, hni⟩
              push_neg at hni
              exact ⟨hni.1, hx, hni.2⟩
            · rintro ⟨hne, hx, hnk⟩
              exact ⟨hx, by push_neg; exact ⟨hne, hnk⟩⟩
          have hmem : t ∈ ts.toFinset \ ks.toFinset :=
            Finset.mem_sdiff.mpr ⟨ht, fun hc => h (List.mem_toFinset.mp hc)⟩
          rw [e1, e2, Finset.card_erase_of_mem hmem]
          have hpos : 0 < (ts.toFinset \ ks.toFinset).card :=
            Finset.card_pos.mpr ⟨t, hmem⟩
          omega
        · have e1 : insert t ts.toFinset \ ks.toFinset =
              insert t (ts.toFinset \ ks.toFinset) := by
            ext x
            simp only [Finset.mem_sdiff, Finset.mem_insert]
            constructor
            · rintro ⟨rfl | hx, hnk⟩
              · exact Or.inl rfl
              · exact Or.inr ⟨hx, hnk⟩
            · rintro (rfl | ⟨hx, hnk⟩)
              · exact ⟨Or.inl rfl, fun hc => h (List.mem_toFinset.mp hc)⟩
              · exact ⟨Or.inr hx, hnk⟩
          have e2 : ts.toFinset \ insert t ks.toFinset =
              ts.toFinset \ ks.toFinset := by
            ext x
            simp only [Finset.mem_sdiff, Finset.mem_insert]
            constructor
            · rintro ⟨hx, hni⟩
              push_neg at hni
              exact ⟨hx, hni.2⟩
            · rintro ⟨hx, hnk⟩
              refine ⟨hx, ?_⟩
              push_neg
              exact ⟨fun hc => ht (hc ▸ hx), hnk⟩
          have hnotmem : t ∉ ts.toFinset \ ks.toFinset := fun hc =>
            ht (Finset.mem_sdiff.mp hc).1
          rw [e1, e2, Finset.card_insert_of_not_mem hnotmem]
          omega

theorem dupCount_eq (ts : List ℕ) :
    dupCount ts = ts.length - ts.toFinset.card := by
  rw [dupCount, dupAux_eq_length_sub_card]
  simp

theorem dupCount_append_le (x y o : List ℕ) (ho : o.length ≤ 1) :
    dupCount (x ++ y) ≤ dupCount (x ++ (o ++ y)) := by
  rcases o with - | ⟨t, o'⟩
  · simp
  · have ho' : o' = [] := by
      cases o' with
      | nil => rfl
      | cons a b => simp at ho
    subst ho'
    rw [dupCount_eq, dupCount_eq]
    have hfs : (x ++ ([t] ++ y)).toFinset = insert t (x ++ y).toFinset := by
      ext z
      simp only [List.toFinset_append, List.toFinset_cons, List.toFinset_nil,
        Finset.mem_union, Finset.mem_insert, List.mem_toFinset]
      constructor
      · rintro (hz | (rfl | hz) | hz)
        · exact Or.inr (by simp [hz])
        · exact Or.inl rfl
        · simp at hz
        · exact Or.inr (by simp [hz])
      · rintro (rfl | hz)
        · exact Or.inr (Or.inl (Or.inl rfl))
        · rcases (by simpa using hz : z ∈ x ∨ z ∈ y) with hz | hz
          · exact Or.inl hz
          · exact Or.inr (Or.inr hz)
    rw [hfs]
    have h1 : (insert t (x ++ y).toFinset).card ≤ (x ++ y).toFinset.card + 1 :=
      Finset.card_insert_le _ _
    have h2 : (x ++ y).toFinset.card ≤ (insert t (x ++ y).toFinset).card :=
      Finset.card_le_card (Finset.subset_insert _ _)
    have h3 : (x ++ y).toFinset.card ≤ (x ++ y).length := (x ++ y).toFinset_card_le
    simp only [List.length_append, List.length_cons, List.length_nil]
    omega

theorem dupCount_append_fresh (x y : List ℕ) (t : ℕ) (h : t ∉ x ++ y) :
    dupCount (x ++ ([t] ++ y)) = dupCount (x ++ y) := by
  rw [dupCount_eq, dupCount_eq]
  have hfs : (x ++ ([t] ++ y)).toFinset = insert t (x ++ y).toFinset := by
    ext z
    simp only [List.toFinset_append, List.toFinset_cons, List.toFinset_nil,
      Finset.mem_union, Finset.mem_insert, List.mem_toFinset]
    constructor
    · rintro (hz | (rfl | hz) | hz)
      · exact Or.inr (by simp [hz])
      · exact Or.inl rfl
      · simp at hz
      · exact Or.inr (by simp [hz])
    · rintro (rfl | hz)
      · exact Or.inr (Or.inl (Or.inl rfl))
      · rcases (by simpa using hz : z ∈ x ∨ z ∈ y) with hz | hz
        · exact Or.inl hz
        · exact Or.inr (Or.inr hz)
  rw [hfs, Finset.card_insert_of_not_mem (fun hc => h (List.mem_toFinset.mp hc))]
  have h3 : (x ++ y).toFinset.card ≤ (x ++ y).length := (x ++ y).toFinset_card_le
  simp only [List.length_append, List.length_cons, List.length_nil]
  omega

theorem try_compact_placement_ne_nil {s : Sched} {day : String} {cid L : ℕ}
    {ids : List ℕ} {ld : List (ℕ × Assignment)}
    (h : try_compact_placement s day cid ld L ids ≠ []) :
    placeLessons s day cid L ids ld 1 =
      some (try_compact_placement s day cid ld L ids) := by
  unfold try_compact_placement at *
  cases hpl : placeLessons s day cid L ids ld 1 with
  | none => rw [hpl] at h; simp at h
  | some p => simp

theorem compactClassDayStep_cases (s : Sched) (day : String) (cid L : ℕ)
    (ids : List ℕ) :
    (compactClassDayStep s day cid L ids).1 = s ∨
    ∃ p : List (ℕ × Assignment),
      (p.map Prod.snd).Perm ((lessonsData s day cid L).map Prod.snd) ∧
      (∀ q ∈ p, 1 ≤ q.1 ∧ q.1 ≤ L ∧
        teacherBusyAt s day q.1 cid q.2.1 ids = false) ∧
      (p.map Prod.fst).Pairwise (· < ·) ∧
      (compactClassDayStep s day cid L ids).1 =
        writePlacement (clearClassDay s day cid L) day cid p := by
  have hfromP : ∀ p : List (ℕ × Assignment),
      placeLessons (clearClassDay s day cid L) day cid L ids
          (lessonsData s day cid L) 1 = some p ∨
        placeLessons (clearClassDay s day cid L) day cid L ids
          (lessonsData s day cid L).reverse 1 = some p →
      (p.map Prod.snd).Perm ((lessonsData s day cid L).map Prod.snd) ∧
      (∀ q ∈ p, 1 ≤ q.1 ∧ q.1 ≤ L ∧
        teacherBusyAt s day q.1 cid q.2.1 ids = false) ∧
      (p.map Prod.fst).Pairwise (· < ·) := by
    intro p hp
    have hbusy : ∀ q ∈ p, 1 ≤ q.1 ∧ q.1 ≤ L ∧
        teacherBusyAt s day q.1 cid q.2.1 ids = false := by
      rcases hp with hp | hp <;>
      · intro q hq
        obtain ⟨ha, hb, hc⟩ := (placeLessons_spec hp).2.1 q hq
        rw [teacherBusyAt_clear] at hc
        exact ⟨ha, hb, hc⟩
    rcases hp with hp | hp
    · obtain ⟨hsnd, -, hpw⟩ := placeLessons_spec hp
      exact ⟨hsnd ▸ List.Perm.refl _, hbusy, hpw⟩
    · obtain ⟨hsnd, -, hpw⟩ := placeLessons_spec hp
      refine ⟨?_, hbusy, hpw⟩
      rw [hsnd, List.map_reverse]
      exact List.reverse_perm _
  simp only [compactClassDayStep]
  by_cases h1 : (lessonsData s day cid L).isEmpty = true
  · rw [if_pos h1]
    exact Or.inl rfl
  rw [if_neg h1]
  by_cases h2 : (lessonsData s day cid L).map Prod.fst =
      List.range' 1 (lessonsData s day cid L).length
  · rw [if_pos h2]
    exact Or.inl rfl
  rw [if_neg h2]
  by_cases hc1 : try_compact_placement (clearClassDay s day cid L) day cid
      (lessonsData s day cid L) L ids ≠ [] ∧
      slotListMax ((try_compact_placement (clearClassDay s day cid L) day cid
        (lessonsData s day cid L) L ids).map Prod.fst) < L + 1
  · rw [if_pos hc1]
    by_cases hc2 : try_compact_placement (clearClassDay s day cid L) day cid
        (lessonsData s day cid L).reverse L ids ≠ [] ∧
        slotListMax ((try_compact_placement (clearClassDay s day cid L) day cid
          (lessonsData s day cid L).reverse L ids).map Prod.fst) <
          (slotListMax ((try_compact_placement (clearClassDay s day cid L) day
            cid (lessonsData s day cid L) L ids).map Prod.fst),
           try_compact_placement (clearClassDay s day cid L) day cid
             (lessonsData s day cid L) L ids).1
    · rw [if_pos hc2, if_neg hc2.1]
      obtain ⟨ha, hb, hc⟩ := hfromP _ (Or.inr (try_compact_placement_ne_nil hc2.1))
      exact Or.inr ⟨_, ha, hb, hc, rfl⟩
    · rw [if_neg hc2, if_neg hc1.1]
      obtain ⟨ha, hb, hc⟩ := hfromP _ (Or.inl (try_compact_placement_ne_nil hc1.1))
      exact Or.inr ⟨_, ha, hb, hc, rfl⟩
  · rw [if_neg hc1]
    by_cases hc2 : try_compact_placement (clearClassDay s day cid L) day cid
        (lessonsData s day cid L).reverse L ids ≠ [] ∧
        slotListMax ((try_compact_placement (clearClassDay s day cid L) day cid
          (lessonsData s day cid L).reverse L ids).map Prod.fst) <
          ((L + 1 : ℕ), ([] : List (ℕ × Assignment))).1
    · rw [if_pos hc2, if_neg hc2.1]
      obtain ⟨ha, hb, hc⟩ := hfromP _ (Or.inr (try_compact_placement_ne_nil hc2.1))
      exact Or.inr ⟨_, ha, hb, hc, rfl⟩
    · rw [if_neg hc2, if_pos rfl]
      exact Or.inl (writePlacement_restore s day cid L)

/-- Teacher-id contribution of one cell. -/
def optTeacher (o : Option Assignment) : List ℕ :=
  match o with
  | some a => [a.1]
  | none => []

/-- Qualification-penalty contribution of one cell. -/
def optQualPenalty (tbid : ℕ → List ℕ) (o : Option Assignment) : ℕ :=
  match o with
  | some a => qualPenalty tbid a
  | none => 0

theorem cellsAt_congr {s₁ s₂ : Sched} {d : String} {l : ℕ} {ids : List ℕ}
    (h : ∀ c ∈ ids, s₁ d l c = s₂ d l c) :
    cellsAt s₁ d l ids = cellsAt s₂ d l ids :=
  List.map_congr_left (fun c hc => by rw [h c hc])

theorem cellTeachersList_split (s : Sched) (d : String) (l : ℕ)
    (u v : List ℕ) (cid : ℕ) :
    cellTeachersList (cellsAt s d l (u ++ cid :: v)) =
      cellTeachersList (cellsAt s d l u) ++
        (optTeacher (s d l cid) ++ cellTeachersList (cellsAt s d l v)) := by
  simp only [cellsAt, cellTeachersList, List.map_append, List.map_cons,
    List.filterMap_append, List.filterMap_cons]
  cases s d l cid with
  | none => simp [optTeacher]
  | some a => simp [optTeacher]

theorem qualCount_split (tbid : ℕ → List ℕ) (s : Sched) (d : String) (l : ℕ)
    (u v : List ℕ) (cid : ℕ) :
    qualCount tbid (cellsAt s d l (u ++ cid :: v)) =
      qualCount tbid (cellsAt s d l u) +
        (optQualPenalty tbid (s d l cid) + qualCount tbid (cellsAt s d l v)) := by
  simp only [cellsAt, qualCount, List.map_append, List.map_cons,
    List.filterMap_append, List.filterMap_cons, List.sum_append]
  cases s d l cid with
  | none => simp [optQualPenalty]
  | some a => simp [optQualPenalty]

theorem sum_map_add_nat {α : Type} (xs : List α) (f g : α → ℕ) :
    (xs.map (fun x => f x + g x)).sum = (xs.map f).sum + (xs.map g).sum := by
  induction xs with
  | nil => simp
  | cons x xs ih => simp [ih]; omega

theorem sum_optQualPenalty (tbid : ℕ → List ℕ) (f : ℕ → Option Assignment) :
    ∀ xs : List ℕ,
      (xs.map (fun l => optQualPenalty tbid (f l))).sum =
        (((xs.filterMap (fun l => (f l).map (fun a => (l, a)))).map
          Prod.snd).map (qualPenalty tbid)).sum
  | [] => by simp
  | x :: xs => by
      cases hfx : f x with
      | none =>
          simp only [List.map_cons, List.sum_cons, List.filterMap_cons, hfx,
            Option.map_none']
          rw [sum_optQualPenalty tbid f xs]
          simp [optQualPenalty]
      | some a =>
          simp only [List.map_cons, List.sum_cons, List.filterMap_cons, hfx,
            Option.map_some', List.map_cons]
          rw [sum_optQualPenalty tbid f xs]
          simp [optQualPenalty]

theorem mem_cellTeachersList {s : Sched} {d : String} {l : ℕ} {xs : List ℕ}
    {t : ℕ} :
    t ∈ cellTeachersList (cellsAt s d l xs) ↔
      ∃ c ∈ xs, ∃ a, s d l c = some a ∧ a.1 = t := by
  simp only [cellTeachersList, cellsAt, List.filterMap_map, List.mem_filterMap]
  constructor
  · rintro ⟨c, hc, hmap⟩
    simp only [Function.comp] at hmap
    cases ha : s d l c with
    | none => rw [ha] at hmap; simp at hmap
    | some a =>
        rw [ha] at hmap
        simp only [Option.map_some', Option.some.injEq] at hmap
        exact ⟨c, hc, a, ha, hmap⟩
  · rintro ⟨c, hc, a, ha, rfl⟩
    refine ⟨c, hc, ?_⟩
    simp [Function.comp, ha]

theorem busy_false_not_mem {s : Sched} {day : String} {l cid t : ℕ}
    {u v : List ℕ} (hu : cid ∉ u) (hv : cid ∉ v)
    (h : teacherBusyAt s day l cid t (u ++ cid :: v) = false) :
    t ∉ cellTeachersList (cellsAt s day l u) ++
        cellTeachersList (cellsAt s day l v) := by
  intro hmem
  rw [teacherBusyAt, List.any_eq_false] at h
  rcases List.mem_append.mp hmem with hm | hm
  · obtain ⟨c, hc, a, ha, rfl⟩ := mem_cellTeachersList.mp hm
    have hne : c ≠ cid := fun hc2 => hu (hc2 ▸ hc)
    exact h c (by simp [hc]) (by simp [hne, cellUsesTeacher, ha])
  · obtain ⟨c, hc, a, ha, rfl⟩ := mem_cellTeachersList.mp hm
    have hne : c ≠ cid := fun hc2 => hv (hc2 ▸ hc)
    exact h c (by simp [hc]) (by simp [hne, cellUsesTeacher, ha])

theorem writePlacement_cell_self (s : Sched) (day : String) (cid L : ℕ)
    (p : List (ℕ × Assignment)) {l : ℕ} (hl : l ∈ slotsOf L) :
    writePlacement (clearClassDay s day cid L) day cid p day l cid =
      (p.find? (fun q => q.1 == l)).map Prod.snd := by
  rw [writePlacement, if_pos ⟨rfl, rfl⟩]
  cases hf : p.find? (fun q => q.1 == l) with
  | some q => simp
  | none =>
      simp only [Option.map_none']
      rw [clearClassDay, if_pos ⟨rfl, rfl, mem_slotsOf.mp hl⟩]

theorem step_slot_dup_le (s : Sched) (day : String) (cid L : ℕ)
    (u v : List ℕ) (hu : cid ∉ u) (hv : cid ∉ v)
    (p : List (ℕ × Assignment))
    (hbusy : ∀ q ∈ p, teacherBusyAt s day q.1 cid q.2.1 (u ++ cid :: v) = false)
    {l : ℕ} (hl : l ∈ slotsOf L) :
    dupCount (cellTeachersList (cellsAt
      (writePlacement (clearClassDay s day cid L) day cid p) day l
      (u ++ cid :: v))) ≤
      dupCount (cellTeachersList (cellsAt s day l (u ++ cid :: v))) := by
  have hother : ∀ c, c ≠ cid →
      writePlacement (clearClassDay s day cid L) day cid p day l c =
        s day l c := fun c hc =>
    writePlacement_clear_other s day cid L p day l c (by simp [hc])
  rw [cellTeachersList_split, cellTeachersList_split]
  rw [cellsAt_congr (fun c hc => hother c (fun h => hu (h ▸ hc))),
    cellsAt_congr (fun c hc => hother c (fun h => hv (h ▸ hc)))]
  rw [writePlacement_cell_self s day cid L p hl]
  cases hf : p.find? (fun q => q.1 == l) with
  | none =>
      simp only [Option.map_none', optTeacher, List.nil_append]
      exact dupCount_append_le _ _ _ (by cases s day l cid <;> simp [optTeacher])
  | some q =>
      simp only [Option.map_some', optTeacher]
      have hqmem : q ∈ p := List.mem_of_find?_eq_some hf
      have hql : q.1 = l := by
        have := List.find?_some hf
        simpa using this
      have hfresh : q.2.1 ∉ cellTeachersList (cellsAt s day l u) ++
          cellTeachersList (cellsAt s day l v) := by
        have hb := hbusy q hqmem
        rw [hql] at hb
        exact busy_false_not_mem hu hv hb
      calc dupCount (cellTeachersList (cellsAt s day l u) ++
            ([q.2.1] ++ cellTeachersList (cellsAt s day l v)))
          = dupCount (cellTeachersList (cellsAt s day l u) ++
            cellTeachersList (cellsAt s day l v)) :=
            dupCount_append_fresh _ _ _ hfresh
        _ ≤ dupCount (cellTeachersList (cellsAt s day l u) ++
            (optTeacher (s day l cid) ++ cellTeachersList (cellsAt s day l v))) :=
            dupCount_append_le _ _ _ (by cases s day l cid <;> simp [optTeacher])

theorem count_teacher_conflicts_congr {s₁ s₂ : Sched} (tbid : ℕ → List ℕ)
    (days : List String) (L : ℕ) (ids : List ℕ)
    (h : ∀ d l c, c ∈ ids → s₁ d l c = s₂ d l c) :
    count_teacher_conflicts s₁ tbid days L ids =
      count_teacher_conflicts s₂ tbid days L ids := by
  unfold count_teacher_conflicts
  congr 1
  apply List.map_congr_left
  intro d _
  congr 1
  apply List.map_congr_left
  intro l _
  rw [cellsAt_congr (fun c hc => h d l c hc)]

theorem compactClassDayStep_conflicts_le (s : Sched) (day : String)
    (cid L : ℕ) (ids : List ℕ) (hnd : ids.Nodup) (tbid : ℕ → List ℕ)
    (days : List String) :
    count_teacher_conflicts (compactClassDayStep s day cid L ids).1 tbid days L
      ids ≤ count_teacher_conflicts s tbid days L ids := by
  rcases compactClassDayStep_cases s day cid L ids with heq |
    ⟨p, hperm, hprops, hpw, heq⟩
  · rw [heq]
  rw [heq]
  by_cases hcid : cid ∈ ids
  case neg =>
    apply le_of_eq
    apply count_teacher_conflicts_congr
    intro d l c hc
    exact writePlacement_clear_other s day cid L p d l c
      (by rintro ⟨-, rfl⟩; exact hcid hc)
  case pos =>
  obtain ⟨u, v, hids⟩ := List.append_of_mem hcid
  subst hids
  have hu : cid ∉ u := by
    rw [List.nodup_append] at hnd
    intro hc
    exact hnd.2.2 hc (List.mem_cons_self cid v)
  have hv : cid ∉ v := by
    rw [List.nodup_append] at hnd
    exact (List.nodup_cons.mp hnd.2.1).1
  set s' := writePlacement (clearClassDay s day cid L) day cid p with hs'
  have hother : ∀ d l c, ¬(d = day ∧ c = cid) → s' d l c = s d l c :=
    fun d l c hc => writePlacement_clear_other s day cid L p d l c hc
  unfold count_teacher_conflicts
  apply List.sum_le_sum
  intro d hd
  by_cases hday : d = day
  case neg =>
    apply le_of_eq
    congr 1
    apply List.map_congr_left
    intro l _
    rw [cellsAt_congr (fun c _ => hother d l c (by rintro ⟨rfl, -⟩; exact hday rfl))]
  case pos =>
  subst hday
  have hdecomp : ∀ (σ : Sched) (l : ℕ),
      slotConflictLoop tbid (cellsAt σ d l (u ++ cid :: v)) [] =
        qualCount tbid (cellsAt σ d l (u ++ cid :: v)) +
          dupCount (cellTeachersList (cellsAt σ d l (u ++ cid :: v))) :=
    fun σ l => by rw [slotConflictLoop_decomp]; rfl
  rw [show (slotsOf L).map (fun l => slotConflictLoop tbid
        (cellsAt s' d l (u ++ cid :: v)) []) =
      (slotsOf L).map (fun l => qualCount tbid (cellsAt s' d l (u ++ cid :: v)) +
        dupCount (cellTeachersList (cellsAt s' d l (u ++ cid :: v)))) from
    List.map_congr_left (fun l _ => hdecomp s' l)]
  rw [show (slotsOf L).map (fun l => slotConflictLoop tbid
        (cellsAt s d l (u ++ cid :: v)) []) =
      (slotsOf L).map (fun l => qualCount tbid (cellsAt s d l (u ++ cid :: v)) +
        dupCount (cellTeachersList (cellsAt s d l (u ++ cid :: v)))) from
    List.map_congr_left (fun l _ => hdecomp s l)]
  rw [sum_map_add_nat, sum_map_add_nat]
  have hqual : ((slotsOf L).map (fun l =>
      qualCount tbid (cellsAt s' d l (u ++ cid :: v)))).sum =
      ((slotsOf L).map (fun l =>
      qualCount tbid (cellsAt s d l (u ++ cid :: v)))).sum := by
    rw [show (slotsOf L).map (fun l =>
          qualCount tbid (cellsAt s' d l (u ++ cid :: v))) =
        (slotsOf L).map (fun l => qualCount tbid (cellsAt s' d l u) +
          (optQualPenalty tbid (s' d l cid) +
            qualCount tbid (cellsAt s' d l v))) from
      List.map_congr_left (fun l _ => qualCount_split tbid s' d l u v cid)]
    rw [show (slotsOf L).map (fun l =>
          qualCount tbid (cellsAt s d l (u ++ cid :: v))) =
        (slotsOf L).map (fun l => qualCount tbid (cellsAt s d l u) +
          (optQualPenalty tbid (s d l cid) +
            qualCount tbid (cellsAt s d l v))) from
      List.map_congr_left (fun l _ => qualCount_split tbid s d l u v cid)]
    rw [sum_map_add_nat, sum_map_add_nat, sum_map_add_nat, sum_map_add_nat]
    have hAu : ((slotsOf L).map (fun l => qualCount tbid (cellsAt s' d l u))).sum
        = ((slotsOf L).map (fun l => qualCount tbid (cellsAt s d l u))).sum := by
      congr 1
      apply List.map_congr_left
      intro l _
      rw [cellsAt_congr (fun c hc => hother d l c
        (by rintro ⟨-, rfl⟩; exact hu hc))]
    have hAv : ((slotsOf L).map (fun l => qualCount tbid (cellsAt s' d l v))).sum
        = ((slotsOf L).map (fun l => qualCount tbid (cellsAt s d l v))).sum := by
      congr 1
      apply List.map_congr_left
      intro l _
      rw [cellsAt_congr (fun c hc => hother d l c
        (by rintro ⟨-, rfl⟩; exact hv hc))]
    have hmid : ((slotsOf L).map (fun l =>
        optQualPenalty tbid (s' d l cid))).sum =
        ((slotsOf L).map (fun l => optQualPenalty tbid (s d l cid))).sum := by
      rw [sum_optQualPenalty tbid (fun l => s' d l cid) (slotsOf L),
        sum_optQualPenalty tbid (fun l => s d l cid) (slotsOf L)]
      have hread : (slotsOf L).filterMap
          (fun l => (s' d l cid).map (fun a => (l, a))) = p := by
        rw [hs']
        exact writePlacement_lessonsData s d cid L p hpw
          (fun q hq => ⟨(hprops q hq).1, (hprops q hq).2.1⟩)
      have hld : (slotsOf L).filterMap
          (fun l => (s d l cid).map (fun a => (l, a))) =
          lessonsData s d cid L := rfl
      rw [hread, hld]
      exact List.Perm.sum_eq ((hperm.map (qualPenalty tbid)))
    omega
  have hdup : ((slotsOf L).map (fun l =>
      dupCount (cellTeachersList (cellsAt s' d l (u ++ cid :: v))))).sum ≤
      ((slotsOf L).map (fun l =>
      dupCount (cellTeachersList (cellsAt s d l (u ++ cid :: v))))).sum := by
    apply List.sum_le_sum
    intro l hl
    rw [hs']
    exact step_slot_dup_le s d cid L u v hu hv p
      (fun q hq => (hprops q hq).2.2) hl
  omega

theorem lessonsData_congr {s₁ s₂ : Sched} {d : String} {c L : ℕ}
    (h : ∀ l, s₁ d l c = s₂ d l c) :
    lessonsData s₁ d c L = lessonsData s₂ d c L := by
  unfold lessonsData
  apply List.filterMap_congr
  intro l _
  rw [h l]

theorem compactClassDayStep_perm (s : Sched) (day : String) (cid L : ℕ)
    (ids : List ℕ) (d : String) (c : ℕ) :
    ((lessonsData (compactClassDayStep s day cid L ids).1 d c L).map
      Prod.snd).Perm ((lessonsData s d c L).map Prod.snd) := by
  rcases compactClassDayStep_cases s day cid L ids with heq |
    ⟨p, hperm, hprops, hpw, heq⟩
  · rw [heq]
  rw [heq]
  by_cases hdc : d = day ∧ c = cid
  · obtain ⟨rfl, rfl⟩ := hdc
    rw [writePlacement_lessonsData s d c L p hpw
      (fun q hq => ⟨(hprops q hq).1, (hprops q hq).2.1⟩)]
    exact hperm
  · rw [lessonsData_congr (fun l =>
      writePlacement_clear_other s day cid L p d l c hdc)]

/-! ### Folding the per-class-day step into passes -/

theorem inner_fold_fst (F : Sched → String → Sched)
    (G : Sched × Bool → String → Bool)
    (hFG : ∀ acc d, (fun (acc : Sched × Bool) d => (F acc.1 d, G acc d)) acc d
      = (F acc.1 d, G acc d)) :
    ∀ (ds : List String) (acc : Sched × Bool),
      (ds.foldl (fun acc d => (F acc.1 d, G acc d)) acc).1 =
        ds.foldl F acc.1
  | [], acc => rfl
  | d :: ds, acc => by
      rw [List.foldl_cons, List.foldl_cons]
      exact inner_fold_fst F G hFG ds _

theorem outer_fold_fst {α : Type} (H : Sched × Bool → α → Sched × Bool)
    (Hσ : Sched → α → Sched) (hH : ∀ acc a, (H acc a).1 = Hσ acc.1 a) :
    ∀ (l : List α) (acc : Sched × Bool),
      (l.foldl H acc).1 = l.foldl Hσ acc.1
  | [], acc => rfl
  | a :: l, acc => by
      rw [List.foldl_cons, List.foldl_cons, outer_fold_fst H Hσ hH l (H acc a),
        hH acc a]

/-- The schedule component of a pass, as a plain fold of per-class-day steps. -/
def compactPassSched (s : Sched) (days : List String) (L : ℕ)
    (classes : List SchoolClass) : Sched :=
  classes.foldl (fun σ cls => days.foldl (fun σ2 day =>
    (compactClassDayStep σ2 day cls.id L (classes.map SchoolClass.id)).1) σ) s

theorem compactPass_fst (s : Sched) (days : List String) (L : ℕ)
    (classes : List SchoolClass) :
    (compactPass s days L classes).1 = compactPassSched s days L classes := by
  unfold compactPass compactPassSched
  apply outer_fold_fst
  intro acc cls
  exact inner_fold_fst
    (fun σ2 day => (compactClassDayStep σ2 day cls.id L
      (classes.map SchoolClass.id)).1)
    (fun acc2 day => acc2.2 || (compactClassDayStep acc2.1 day cls.id L
      (classes.map SchoolClass.id)).2)
    (fun _ _ => rfl) days acc

theorem compactPassSched_conflicts_le (days : List String) (L : ℕ)
    (classes : List SchoolClass)
    (hnd : (classes.map SchoolClass.id).Nodup) (tbid : ℕ → List ℕ)
    (cdays : List String) :
    ∀ (cs : List SchoolClass) (s : Sched),
      count_teacher_conflicts
        (cs.foldl (fun σ cls => days.foldl (fun σ2 day =>
          (compactClassDayStep σ2 day cls.id L
            (classes.map SchoolClass.id)).1) σ) s) tbid cdays L
        (classes.map SchoolClass.id) ≤
      count_teacher_conflicts s tbid cdays L (classes.map SchoolClass.id)
  | [], s => le_refl _
  | cls :: cs, s => by
      rw [List.foldl_cons]
      refine le_trans (compactPassSched_conflicts_le days L classes hnd tbid
        cdays cs _) ?_
      show count_teacher_conflicts (days.foldl _ s) _ _ _ _ ≤ _
      clear cs
      induction days generalizing s with
      | nil => exact le_refl _
      | cons d ds ih =>
          rw [List.foldl_cons]
          exact le_trans (ih _)
            (compactClassDayStep_conflicts_le s d cls.id L _ hnd tbid cdays)

theorem compactPassSched_perm (days : List String) (L : ℕ)
    (classes : List SchoolClass) (d : String) (c : ℕ) :
    ∀ (cs : List SchoolClass) (s : Sched),
      ((lessonsData (cs.foldl (fun σ cls => days.foldl (fun σ2 day =>
          (compactClassDayStep σ2 day cls.id L
            (classes.map SchoolClass.id)).1) σ) s) d c L).map Prod.snd).Perm
        ((lessonsData s d c L).map Prod.snd)
  | [], s => List.Perm.refl _
  | cls :: cs, s => by
      rw [List.foldl_cons]
      refine (compactPassSched_perm days L classes d c cs _).trans ?_
      clear cs
      induction days generalizing s with
      | nil => exact List.Perm.refl _
      | cons d0 ds ih =>
          rw [List.foldl_cons]
          exact (ih _).trans (compactClassDayStep_perm s d0 cls.id L _ d c)

/-- C2: `compact_schedule_full` never increases the teacher-conflict count,
preserves every `(class, day)`'s multiset of `(teacher, subject)` assignments
(no lesson is dropped), and equals at most three applications of the full
pass (early exit via the `improved` flag). -/
theorem compact_schedule_full_contract (s : Sched) (days : List String)
    (L : ℕ) (classes : List SchoolClass) (tbid : ℕ → List ℕ)
    (hnd : (classes.map SchoolClass.id).Nodup) :
    count_teacher_conflicts (compact_schedule_full s days L classes) tbid days
      L (classes.map SchoolClass.id) ≤
      count_teacher_conflicts s tbid days L (classes.map SchoolClass.id) ∧
    (∀ (d : String) (c : ℕ),
      ((lessonsData (compact_schedule_full s days L classes) d c L).map
        Prod.snd).Perm ((lessonsData s d c L).map Prod.snd)) ∧
    ∃ k, k ≤ 3 ∧ compact_schedule_full s days L classes =
      (fun σ => (compactPass σ days L classes).1)^[k] s := by
  have h1 : ∀ σ : Sched,
      count_teacher_conflicts (compactPass σ days L classes).1 tbid days L
        (classes.map SchoolClass.id) ≤
      count_teacher_conflicts σ tbid days L (classes.map SchoolClass.id) := by
    intro σ
    rw [compactPass_fst]
    exact compactPassSched_conflicts_le days L classes hnd tbid days classes σ
  have hp1 : ∀ (σ : Sched) (d : String) (c : ℕ),
      ((lessonsData (compactPass σ days L classes).1 d c L).map
        Prod.snd).Perm ((lessonsData σ d c L).map Prod.snd) := by
    intro σ d c
    rw [compactPass_fst]
    exact compactPassSched_perm days L classes d c classes σ
  simp only [compact_schedule_full]
  by_cases hb1 : (compactPass s days L classes).2 = false
  · rw [if_pos hb1]
    exact ⟨h1 s, fun d c => hp1 s d c, 1, by omega, rfl⟩
  · rw [if_neg hb1]
    by_cases hb2 :
        (compactPass (compactPass s days L classes).1 days L classes).2 = false
    · rw [if_pos hb2]
      exact ⟨le_trans (h1 _) (h1 s),
        fun d c => (hp1 _ d c).trans (hp1 s d c), 2, by omega, rfl⟩
    · rw [if_neg hb2]
      exact ⟨le_trans (h1 _) (le_trans (h1 _) (h1 s)),
        fun d c => ((hp1 _ d c).trans (hp1 _ d c)).trans (hp1 s d c),
        3, by omega, rfl⟩

/-! ### C3: compaction and contiguous prefixes -/

/-- Occupied slots of one class on one day, ascending. -/
def occupiedSlots (s : Sched) (day : String) (cid L : ℕ) : List ℕ :=
  (slotsOf L).filter (fun l => (s day l cid).isSome)

theorem occupiedSlots_eq_lessonsData_fst (s : Sched) (day : String)
    (cid L : ℕ) :
    occupiedSlots s day cid L = (lessonsData s day cid L).map Prod.fst := by
  unfold occupiedSlots lessonsData
  induction slotsOf L with
  | nil => simp
  | cons x xs ih =>
      cases hfx : s day x cid with
      | none => simp [List.filter_cons, List.filterMap_cons, hfx, ih]
      | some a => simp [List.filter_cons, List.filterMap_cons, hfx, ih]

/-- No two distinct classes use a common teacher anywhere on `day`
(decidable form used in witnesses). -/
def noSharedTeachersB (s : Sched) (day : String) (L : ℕ) (ids : List ℕ) :
    Bool :=
  ids.all (fun c1 => ids.all (fun c2 => (c1 == c2) ||
    (slotsOf L).all (fun l1 => (slotsOf L).all (fun l2 =>
      match s day l1 c1, s day l2 c2 with
      | some a1, some a2 => a1.1 != a2.1
      | _, _ => true))))

/-- Propositional form of `noSharedTeachersB`. -/
def NoSharedTeachers (s : Sched) (day : String) (L : ℕ) (ids : List ℕ) :
    Prop :=
  ∀ c1 ∈ ids, ∀ c2 ∈ ids, c1 ≠ c2 → ∀ l1 ∈ slotsOf L, ∀ l2 ∈ slotsOf L,
    ∀ a1 a2 : Assignment,
      s day l1 c1 = some a1 → s day l2 c2 = some a2 → a1.1 ≠ a2.1

theorem noSharedTeachersB_iff (s : Sched) (day : String) (L : ℕ)
    (ids : List ℕ) :
    noSharedTeachersB s day L ids = true ↔ NoSharedTeachers s day L ids := by
  unfold noSharedTeachersB NoSharedTeachers
  simp only [List.all_eq_true, Bool.or_eq_true, beq_iff_eq]
  constructor
  · intro h c1 h1 c2 h2 hne l1 hl1 l2 hl2 a1 a2 ha1 ha2
    rcases h c1 h1 c2 h2 with heq | hall
    · exact absurd heq hne
    · have := hall l1 hl1 l2 hl2
      rw [ha1, ha2] at this
      simpa using this
  · intro h c1 h1 c2 h2
    by_cases heq : c1 = c2
    · exact Or.inl heq
    · refine Or.inr ?_
      intro l1 hl1 l2 hl2
      cases ha1 : s day l1 c1 with
      | none => simp
      | some a1 =>
          cases ha2 : s day l2 c2 with
          | none => simp
          | some a2 =>
              simpa using h c1 h1 c2 h2 heq l1 hl1 l2 hl2 a1 a2 ha1 ha2

theorem foldl_max_consec : ∀ (n lo : ℕ), (List.range' (lo + 1) n).foldl max lo = lo + n
  | 0, lo => rfl
  | n + 1, lo => by
      rw [List.range'_succ, List.foldl_cons, max_eq_right (by omega)]
      have := foldl_max_consec n (lo + 1)
      omega

theorem slotListMax_range' (k : ℕ) :
    slotListMax (List.range' 1 (k + 1)) = k + 1 := by
  rw [List.range'_succ, slotListMax]
  have := foldl_max_consec k 1
  omega

theorem placeLessons_all_free (σ : Sched) (day : String) (cid L : ℕ)
    (ids : List ℕ) :
    ∀ (ld : List (ℕ × Assignment)) (next : ℕ),
      (∀ q ∈ ld, ∀ l, 1 ≤ l → l ≤ L →
        teacherBusyAt σ day l cid q.2.1 ids = false) →
      1 ≤ next → next + ld.length ≤ L + 1 →
      placeLessons σ day cid L ids ld next =
        some ((List.range' next ld.length).zip (ld.map Prod.snd))
  | [], next, _, _, _ => by simp [placeLessons]
  | (m, a) :: rest, next, hfree, h1, h2 => by
      have hnextL : next ≤ L := by
        have := h2
        simp only [List.length_cons] at this
        omega
      have hfind : findFreeSlot σ day cid a.1 next L ids = some next := by
        unfold findFreeSlot
        have hlen : L + 1 - next = (L - next) + 1 := by omega
        rw [hlen, List.range'_succ, List.find?_cons_of_pos]
        simp only [Bool.not_eq_eq_eq_not, Bool.not_true]
        rw [hfree (m, a) (by simp) next h1 hnextL]
      rw [placeLessons, hfind]
      dsimp only
      rw [placeLessons_all_free σ day cid L ids rest (next + 1)
        (fun q hq => hfree q (by simp [hq])) (by omega)
        (by simp only [List.length_cons] at h2; omega)]
      simp only [List.length_cons, List.map_cons]
      rw [List.range'_succ, List.zip_cons_cons]

theorem lessonsData_length_le (s : Sched) (day : String) (cid L : ℕ) :
    (lessonsData s day cid L).length ≤ L := by
  have h := (lessonsData_fst_sublist s day cid L).length_le
  simpa [slotsOf] using h

theorem step_noshared_prefix (s : Sched) (day : String) (cid L : ℕ)
    (ids : List ℕ) (hcid : cid ∈ ids)
    (hns : NoSharedTeachers s day L ids) :
    occupiedSlots (compactClassDayStep s day cid L ids).1 day cid L =
      List.range' 1 (lessonsData s day cid L).length := by
  have hfree : ∀ q ∈ lessonsData s day cid L, ∀ l, 1 ≤ l → l ≤ L →
      teacherBusyAt (clearClassDay s day cid L) day l cid q.2.1 ids = false := by
    intro q hq l hl1 hl2
    rw [teacherBusyAt_clear, teacherBusyAt, List.any_eq_false]
    intro c hc
    by_cases hcc : c = cid
    · simp [hcc]
    · simp only [Bool.and_eq_true, bne_iff_ne, ne_eq, not_and]
      intro _
      cases hcell : s day l c with
      | none => simp [cellUsesTeacher]
      | some a2 =>
          simp only [cellUsesTeacher, beq_iff_eq]
          have hq2 := mem_lessonsData.mp (show (q.1, q.2) ∈ _ from hq)
          exact hns c hc cid hcid hcc l (mem_slotsOf.mpr ⟨hl1, hl2⟩)
            q.1 hq2.1 a2 q.2 hcell hq2.2
  have hlenle : (lessonsData s day cid L).length ≤ L :=
    lessonsData_length_le s day cid L
  by_cases h1 : (lessonsData s day cid L).isEmpty = true
  · have hnil : lessonsData s day cid L = [] := List.isEmpty_iff.mp h1
    rw [show (compactClassDayStep s day cid L ids).1 = s from by
      simp only [compactClassDayStep]; rw [if_pos h1]]
    rw [occupiedSlots_eq_lessonsData_fst, hnil]
    simp
  by_cases h2 : (lessonsData s day cid L).map Prod.fst =
      List.range' 1 (lessonsData s day cid L).length
  · rw [show (compactClassDayStep s day cid L ids).1 = s from by
      simp only [compactClassDayStep]; rw [if_neg h1, if_pos h2]]
    rw [occupiedSlots_eq_lessonsData_fst]
    exact h2
  obtain ⟨k, hk⟩ : ∃ k, (lessonsData s day cid L).length = k + 1 := by
    cases hlen : (lessonsData s day cid L).length with
    | zero =>
        rw [List.length_eq_zero] at hlen
        rw [hlen] at h1
        simp at h1
    | succ k => exact ⟨k, rfl⟩
  have hplace1 : placeLessons (clearClassDay s day cid L) day cid L ids
      (lessonsData s day cid L) 1 =
      some ((List.range' 1 (lessonsData s day cid L).length).zip
        ((lessonsData s day cid L).map Prod.snd)) :=
    placeLessons_all_free _ day cid L ids _ 1 hfree (le_refl 1) (by omega)
  have hplace2 : placeLessons (clearClassDay s day cid L) day cid L ids
      (lessonsData s day cid L).reverse 1 =
      some ((List.range' 1 (lessonsData s day cid L).length).zip
        ((lessonsData s day cid L).reverse.map Prod.snd)) := by
    have := placeLessons_all_free (clearClassDay s day cid L) day cid L ids
      (lessonsData s day cid L).reverse 1
      (fun q hq => hfree q (List.mem_reverse.mp hq)) (le_refl 1)
      (by rw [List.length_reverse]; omega)
    rw [this, List.length_reverse]
  have hzip_fst : ∀ ys : List Assignment,
      ys.length = (lessonsData s day cid L).length →
      (((List.range' 1 (lessonsData s day cid L).length).zip ys).map
        Prod.fst) = List.range' 1 (lessonsData s day cid L).length := by
    intro ys hys
    apply List.map_fst_zip
    rw [hys, List.length_range']
  have htry1 : try_compact_placement (clearClassDay s day cid L) day cid
      (lessonsData s day cid L) L ids =
      (List.range' 1 (lessonsData s day cid L).length).zip
        ((lessonsData s day cid L).map Prod.snd) := by
    unfold try_compact_placement
    rw [hplace1]
    rfl
  have htry2 : try_compact_placement (clearClassDay s day cid L) day cid
      (lessonsData s day cid L).reverse L ids =
      (List.range' 1 (lessonsData s day cid L).length).zip
        ((lessonsData s day cid L).reverse.map Prod.snd) := by
    unfold try_compact_placement
    rw [hplace2]
    rfl
  have hstep : (compactClassDayStep s day cid L ids).1 =
      writePlacement (clearClassDay s day cid L) day cid
        ((List.range' 1 (lessonsData s day cid L).length).zip
          ((lessonsData s day cid L).map Prod.snd)) := by
    simp only [compactClassDayStep]
    rw [if_neg h1, if_neg h2, htry1, htry2]
    set z1 := (List.range' 1 (lessonsData s day cid L).length).zip
      ((lessonsData s day cid L).map Prod.snd) with hz1
    set z2 := (List.range' 1 (lessonsData s day cid L).length).zip
      ((lessonsData s day cid L).reverse.map Prod.snd) with hz2
    have hp1ne : z1 ≠ [] := by
      rw [hz1]
      intro hcon
      have := congrArg List.length hcon
      rw [List.length_zip, List.length_range', List.length_map] at this
      simp only [List.length_nil] at this
      omega
    have hmax1 : slotListMax (z1.map Prod.fst) =
        (lessonsData s day cid L).length := by
      rw [hz1, hzip_fst _ (by rw [List.length_map]), hk, slotListMax_range']
    have hmax2 : slotListMax (z2.map Prod.fst) =
        (lessonsData s day cid L).length := by
      rw [hz2, hzip_fst _ (by rw [List.length_map, List.length_reverse]), hk,
        slotListMax_range']
    have hcond1 : z1 ≠ [] ∧ slotListMax (z1.map Prod.fst) < L + 1 :=
      ⟨hp1ne, by rw [hmax1]; omega⟩
    rw [if_pos hcond1]
    have hcond2 : ¬(z2 ≠ [] ∧ slotListMax (z2.map Prod.fst) <
        (slotListMax (z1.map Prod.fst), z1).1) := by
      rintro ⟨-, hlt⟩
      rw [hmax2] at hlt
      have hfst : (slotListMax (z1.map Prod.fst), z1).1 =
          slotListMax (z1.map Prod.fst) := rfl
      rw [hfst, hmax1] at hlt
      omega
    rw [if_neg hcond2]
    have hbne : (slotListMax (z1.map Prod.fst), z1).2 ≠ [] := hp1ne
    rw [if_neg hbne]
  rw [hstep, occupiedSlots_eq_lessonsData_fst,
    writePlacement_lessonsData s day cid L _
      (by rw [hzip_fst _ (by rw [List.length_map])]
          exact List.pairwise_lt_range' 1 _)
      (fun q hq => by
        have hq1 := (List.of_mem_zip hq).1
        have := List.mem_range'_1.mp hq1
        omega)]
  exact hzip_fst _ (by rw [List.length_map])

theorem NoSharedTeachers_of_perm {σ' σ : Sched} {day : String} {L : ℕ}
    {ids : List ℕ}
    (hperm : ∀ c, ((lessonsData σ' day c L).map Prod.snd).Perm
      ((lessonsData σ day c L).map Prod.snd))
    (hns : NoSharedTeachers σ day L ids) : NoSharedTeachers σ' day L ids := by
  intro c1 h1 c2 h2 hne l1 hl1 l2 hl2 a1 a2 ha1 ha2
  have m1 : a1 ∈ (lessonsData σ day c1 L).map Prod.snd := by
    refine (hperm c1).mem_iff.mp ?_
    exact List.mem_map.mpr ⟨(l1, a1), mem_lessonsData.mpr ⟨hl1, ha1⟩, rfl⟩
  have m2 : a2 ∈ (lessonsData σ day c2 L).map Prod.snd := by
    refine (hperm c2).mem_iff.mp ?_
    exact List.mem_map.mpr ⟨(l2, a2), mem_lessonsData.mpr ⟨hl2, ha2⟩, rfl⟩
  obtain ⟨q1, hq1, rfl⟩ := List.mem_map.mp m1
  obtain ⟨q2, hq2, rfl⟩ := List.mem_map.mp m2
  have hm1 := mem_lessonsData.mp (show (q1.1, q1.2) ∈ _ from hq1)
  have hm2 := mem_lessonsData.mp (show (q2.1, q2.2) ∈ _ from hq2)
  exact hns c1 h1 c2 h2 hne q1.1 hm1.1 q2.1 hm2.1 q1.2 q2.2 hm1.2 hm2.2

theorem compactClassDayStep_other (s : Sched) (day : String) (cid L : ℕ)
    (ids : List ℕ) (d : String) (l c : ℕ) (h : ¬(d = day ∧ c = cid)) :
    (compactClassDayStep s day cid L ids).1 d l c = s d l c := by
  rcases compactClassDayStep_cases s day cid L ids with heq |
    ⟨p, -, -, -, heq⟩
  · rw [heq]
  · rw [heq]
    exact writePlacement_clear_other s day cid L p d l c h

theorem step_column_length (s : Sched) (day : String) (cid L : ℕ)
    (ids : List ℕ) (d : String) (c : ℕ) :
    (lessonsData (compactClassDayStep s day cid L ids).1 d c L).length =
      (lessonsData s d c L).length := by
  have := (compactClassDayStep_perm s day cid L ids d c).length_eq
  simpa using this

theorem occupiedSlots_congr {σ' σ : Sched} {day : String} {c L : ℕ}
    (h : ∀ l, σ' day l c = σ day l c) :
    occupiedSlots σ' day c L = occupiedSlots σ day c L := by
  unfold occupiedSlots
  apply List.filter_congr
  intro l _
  rw [h l]

theorem innerFold_other (cid L : ℕ) (ids : List ℕ) :
    ∀ (ds : List String) (σ : Sched) (d : String) (l c : ℕ), c ≠ cid →
      (ds.foldl (fun σ2 day => (compactClassDayStep σ2 day cid L ids).1) σ)
        d l c = σ d l c
  | [], σ, d, l, c, _ => rfl
  | d0 :: ds, σ, d, l, c, hc => by
      rw [List.foldl_cons, innerFold_other cid L ids ds _ d l c hc,
        compactClassDayStep_other _ _ _ _ _ _ _ _ (by rintro ⟨-, rfl⟩; exact hc rfl)]

theorem innerFold_perm (cid L : ℕ) (ids : List ℕ) :
    ∀ (ds : List String) (σ : Sched) (d : String) (c : ℕ),
      ((lessonsData (ds.foldl (fun σ2 day =>
          (compactClassDayStep σ2 day cid L ids).1) σ) d c L).map
        Prod.snd).Perm ((lessonsData σ d c L).map Prod.snd)
  | [], σ, d, c => List.Perm.refl _
  | d0 :: ds, σ, d, c => by
      rw [List.foldl_cons]
      exact (innerFold_perm cid L ids ds _ d c).trans
        (compactClassDayStep_perm σ d0 cid L ids d c)

theorem innerFold_otherday (cid L : ℕ) (ids : List ℕ) :
    ∀ (ds : List String) (σ : Sched) (d : String) (l c : ℕ), d ∉ ds →
      (ds.foldl (fun σ2 day => (compactClassDayStep σ2 day cid L ids).1) σ)
        d l c = σ d l c
  | [], _, _, _, _, _ => rfl
  | d1 :: ds, σ, d, l, c, hd => by
      rw [List.foldl_cons,
        innerFold_otherday cid L ids ds _ d l c
          (fun h => hd (List.mem_cons_of_mem d1 h)),
        compactClassDayStep_other _ _ _ _ _ _ _ _
          (by rintro ⟨rfl, -⟩; exact hd (List.mem_cons_self _ _))]

theorem innerFold_prefix (day : String) (cid L : ℕ) (ids : List ℕ)
    (hcid : cid ∈ ids) :
    ∀ (ds : List String) (σ : Sched), day ∈ ds →
      NoSharedTeachers σ day L ids →
      occupiedSlots (ds.foldl (fun σ2 d0 =>
          (compactClassDayStep σ2 d0 cid L ids).1) σ) day cid L =
        List.range' 1 (lessonsData σ day cid L).length
  | [], σ, hmem, _ => by simp at hmem
  | d0 :: ds, σ, hmem, hns => by
      rw [List.foldl_cons]
      by_cases hday : day ∈ ds
      · have hns' : NoSharedTeachers (compactClassDayStep σ d0 cid L ids).1
            day L ids :=
          NoSharedTeachers_of_perm
            (fun c => compactClassDayStep_perm σ d0 cid L ids day c) hns
        rw [ innerFold_prefix day cid L ids hcid ds _ hday hns',
          step_column_length]
      · have hd0 : d0 = day := by
          rcases List.mem_cons.mp hmem with h | h
          · exact h.symm
          · exact absurd h hday
        subst hd0
        rw [occupiedSlots_congr (fun l =>
          innerFold_otherday cid L ids ds _ d0 l cid hday)]
        exact step_noshared_prefix σ d0 cid L ids hcid hns

theorem outerFold_other (days : List String) (L : ℕ) (ids : List ℕ) :
    ∀ (cs : List SchoolClass) (σ : Sched) (d : String) (l c : ℕ),
      (∀ cls ∈ cs, cls.id ≠ c) →
      (cs.foldl (fun σ0 cls => days.foldl (fun σ2 d0 =>
        (compactClassDayStep σ2 d0 cls.id L ids).1) σ0) σ) d l c = σ d l c
  | [], _, _, _, _, _ => rfl
  | cls :: cs, σ, d, l, c, hc => by
      rw [List.foldl_cons,
        outerFold_other days L ids cs _ d l c
          (fun cls' h => hc cls' (List.mem_cons_of_mem cls h)),
        innerFold_other cls.id L ids days σ d l c
          (fun h => hc cls (List.mem_cons_self cls cs) h.symm)]

theorem outerFold_noshared_prefix (days : List String) (L : ℕ) (ids : List ℕ)
    (day : String) (hday : day ∈ days) :
    ∀ (cs : List SchoolClass) (σ : Sched),
      (∀ cls ∈ cs, cls.id ∈ ids) →
      NoSharedTeachers σ day L ids →
      NoSharedTeachers (cs.foldl (fun σ0 cls => days.foldl (fun σ2 d0 =>
        (compactClassDayStep σ2 d0 cls.id L ids).1) σ0) σ) day L ids ∧
      ∀ cls ∈ cs, occupiedSlots (cs.foldl (fun σ0 cls0 =>
          days.foldl (fun σ2 d0 =>
            (compactClassDayStep σ2 d0 cls0.id L ids).1) σ0) σ) day cls.id L =
        List.range' 1 (lessonsData σ day cls.id L).length
  | [], σ, _, hns => ⟨hns, by simp⟩
  | cls :: cs, σ, hsub, hns => by
      rw [List.foldl_cons]
      have hns1 : NoSharedTeachers (days.foldl (fun σ2 d0 =>
          (compactClassDayStep σ2 d0 cls.id L ids).1) σ) day L ids :=
        NoSharedTeachers_of_perm
          (fun c => innerFold_perm cls.id L ids days σ day c) hns
      obtain ⟨hnsF, hprefixF⟩ := outerFold_noshared_prefix days L ids day hday
        cs _ (fun cls' h => hsub cls' (List.mem_cons_of_mem cls h)) hns1
      refine ⟨hnsF, ?_⟩
      intro cls0 hcls0
      rcases List.mem_cons.mp hcls0 with rfl | hmem
      · by_cases hdup : ∃ cls' ∈ cs, cls'.id = cls0.id
        · obtain ⟨cls', hcls', hid⟩ := hdup
          have := hprefixF cls' hcls'
          rw [hid] at this
          rw [this]
          congr 1
          have hlen := (innerFold_perm cls0.id L ids days σ day
            cls0.id).length_eq
          simpa using hlen
        · push_neg at hdup
          rw [occupiedSlots_congr (fun l =>
            outerFold_other days L ids cs _ day l cls0.id
              (fun cls' h => hdup cls' h))]
          exact innerFold_prefix day cls0.id L ids
            (hsub cls0 (List.mem_cons_self cls0 cs)) days σ hday hns
      · have := hprefixF cls0 hmem
        rw [this]
        congr 1
        have hlen := (innerFold_perm cls.id L ids days σ day
          cls0.id).length_eq
        simpa using hlen

/-- C3 (amended): when no two classes share a teacher on a day, the full
compaction pass leaves every class's occupied slots on that day as the
contiguous prefix `1..k` with `k` the class's lesson count. -/
theorem compact_schedule_full_noshared_prefix (s : Sched) (days : List String)
    (L : ℕ) (classes : List SchoolClass) (day : String) (hday : day ∈ days)
    (hns : noSharedTeachersB s day L (classes.map SchoolClass.id) = true) :
    ∀ cls ∈ classes,
      occupiedSlots (compact_schedule_full s days L classes) day cls.id L =
        List.range' 1 (lessonsData s day cls.id L).length := by
  have hsub : ∀ cls ∈ classes, cls.id ∈ classes.map SchoolClass.id :=
    fun cls h => List.mem_map_of_mem _ h
  have hns0 : NoSharedTeachers s day L (classes.map SchoolClass.id) :=
    (noSharedTeachersB_iff _ _ _ _).mp hns
  have hpass : ∀ σ : Sched,
      NoSharedTeachers σ day L (classes.map SchoolClass.id) →
      NoSharedTeachers (compactPass σ days L classes).1 day L
        (classes.map SchoolClass.id) ∧
      ∀ cls ∈ classes, occupiedSlots (compactPass σ days L classes).1 day
          cls.id L = List.range' 1 (lessonsData σ day cls.id L).length := by
    intro σ hσ
    rw [compactPass_fst]
    exact outerFold_noshared_prefix days L (classes.map SchoolClass.id) day
      hday classes σ hsub hσ
  have hlen : ∀ (σ : Sched) (c : ℕ),
      (lessonsData (compactPass σ days L classes).1 day c L).length =
        (lessonsData σ day c L).length := by
    intro σ c
    rw [compactPass_fst]
    have := (compactPassSched_perm days L classes day c classes σ).length_eq
    simpa using this
  simp only [compact_schedule_full]
  by_cases hb1 : (compactPass s days L classes).2 = false
  · rw [if_pos hb1]
    exact (hpass s hns0).2
  · rw [if_neg hb1]
    by_cases hb2 :
        (compactPass (compactPass s days L classes).1 days L classes).2 = false
    · rw [if_pos hb2]
      intro cls hcls
      rw [(hpass _ (hpass s hns0).1).2 cls hcls, hlen s cls.id]
    · rw [if_neg hb2]
      intro cls hcls
      rw [(hpass _ (hpass _ (hpass s hns0).1).1).2 cls hcls,
        hlen _ cls.id, hlen s cls.id]

/-- Whether all given assignments can be placed into distinct free slots
without a cross-class teacher conflict — the spec's "a placement of all that
class-day's lessons could succeed".  This definition follows the spec's
words, for comparison with what the code does. -/
def canPlaceAll (s : Sched) (day : String) (cid : ℕ) (ids : List ℕ) :
    List Assignment → List ℕ → Bool
  | [], _ => true
  | a :: rest, free => free.any (fun l =>
      !(teacherBusyAt s day l cid a.1 ids) &&
        canPlaceAll s day cid ids rest (free.erase l))

/-- Two classes on one 3-slot day: class 1 has teacher 1 at slot 2 only,
class 2 has teacher 1 at slot 1.  Greedy compaction cannot move class 1 to
slot 1 (teacher conflict) and leaves it at slot 2 — a gap that is neither a
contiguous prefix nor an impossible placement. -/
def exSchedC3 : Sched := fun d l c =>
  if d = "Monday" ∧ c = 1 ∧ l = 2 then some (1, 10)
  else if d = "Monday" ∧ c = 2 ∧ l = 1 then some (1, 11) else none

/-- Classes for the compaction counterexample. -/
def exClassesC3 : List SchoolClass := [⟨1, "A"⟩, ⟨2, "B"⟩]

/-- C3 (counterexample): after `compact_schedule_full`, class 1's occupied
slots are `{2}` — not a contiguous prefix — even though a conflict-free
placement of its lessons exists (so the "no placement could succeed and the
original is restored" arm does not apply either). -/
theorem compaction_prefix_claim_fails :
    ¬ (∀ c ∈ [1, 2],
        occupiedSlots (compact_schedule_full exSchedC3 ["Monday"] 3
          exClassesC3) "Monday" c 3 =
          List.range' 1 (lessonsData exSchedC3 "Monday" c 3).length ∨
        (canPlaceAll exSchedC3 "Monday" c [1, 2]
            ((lessonsData exSchedC3 "Monday" c 3).map Prod.snd)
            (slotsOf 3) = false ∧
         occupiedSlots (compact_schedule_full exSchedC3 ["Monday"] 3
           exClassesC3) "Monday" c 3 =
           occupiedSlots exSchedC3 "Monday" c 3)) := by
  decide

/-- Witness for `compact_schedule_full_contract` at a concrete schedule. -/
theorem compact_schedule_full_contract_witness :
    ([exClassC1].map SchoolClass.id).Nodup ∧
    (count_teacher_conflicts (compact_schedule_full exSchedC1 ["Monday"] 3
        [exClassC1]) (qualLookup [exTeacherC1]) ["Monday"] 3
        ([exClassC1].map SchoolClass.id) ≤
      count_teacher_conflicts exSchedC1 (qualLookup [exTeacherC1]) ["Monday"] 3
        ([exClassC1].map SchoolClass.id) ∧
    (∀ (d : String) (c : ℕ),
      ((lessonsData (compact_schedule_full exSchedC1 ["Monday"] 3 [exClassC1])
        d c 3).map Prod.snd).Perm
        ((lessonsData exSchedC1 d c 3).map Prod.snd)) ∧
    ∃ k, k ≤ 3 ∧ compact_schedule_full exSchedC1 ["Monday"] 3 [exClassC1] =
      (fun σ => (compactPass σ ["Monday"] 3 [exClassC1]).1)^[k] exSchedC1) :=
  ⟨by decide, compact_schedule_full_contract exSchedC1 ["Monday"] 3
    [exClassC1] (qualLookup [exTeacherC1]) (by decide)⟩

/-- Witness for `compact_schedule_full_noshared_prefix` at a concrete
schedule with a single class. -/
theorem compact_schedule_full_noshared_prefix_witness :
    ("Monday" ∈ ["Monday"]) ∧
    (noSharedTeachersB exSchedC1 "Monday" 3
      ([exClassC1].map SchoolClass.id) = true) ∧
    (∀ cls ∈ [exClassC1],
      occupiedSlots (compact_schedule_full exSchedC1 ["Monday"] 3 [exClassC1])
        "Monday" cls.id 3 =
      List.range' 1 (lessonsData exSchedC1 "Monday" cls.id 3).length) :=
  ⟨by decide, by decide,
    compact_schedule_full_noshared_prefix exSchedC1 ["Monday"] 3 [exClassC1]
      "Monday" (by decide) (by decide)⟩

/-! ### Population initialization (`src/services/ga/population_init.py`) -/

/-- The `assigned_teachers[day][lesson]` sets. -/
def AssignedMap := String → ℕ → List ℕ

/-- Write one cell of a schedule. -/
def schedWrite (s : Sched) (d : String) (l c : ℕ) (v : Option Assignment) :
    Sched := fun d' l' c' =>
  if d' = d ∧ l' = l ∧ c' = c then v else s d' l' c'

/-- Record a teacher as booked at `(day, lesson)`. -/
def asgAdd (asg : AssignedMap) (d : String) (l t : ℕ) : AssignedMap :=
  fun d' l' => if d' = d ∧ l' = l then t :: asg d' l' else asg d' l'

/-- Empty chromosome: every `(day, lesson, class)` cell is `None`. -/
def emptySched : Sched := fun _ _ _ => none

/-- Empty booking sets. -/
def emptyAssigned : AssignedMap := fun _ _ => []

/-- The draw `sum(1 for _ in range(lessons_per_day) if random.random() < 0.7)`. -/
def countFillTrials : ℕ → Rng → ℕ × Rng
  | 0, r => (0, r)
  | n + 1, r =>
      let f := randFloat r
      let rest := countFillTrials n f.2
      ((if f.1 < 7/10 then 1 else 0) + rest.1, rest.2)

/-- The subject scan of `_assign_compact_lesson` over the shuffled subjects. -/
def assignLoop (day : String) (lesson : ℕ) (tbs : ℕ → List Teacher)
    (asg : AssignedMap) : List Subject → Rng → Option Assignment × Rng
  | [], r => (none, r)
  | subj :: rest, r =>
      let available := tbs subj.id
      if available.isEmpty then assignLoop day lesson tbs asg rest r
      else
        let free := available.filter (fun t => t.id ∉ asg day lesson)
        if free.isEmpty then assignLoop day lesson tbs asg rest r
        else
          let ch := choiceD free ⟨0, "", []⟩ r
          (some (ch.1.id, subj.id), ch.2)

/-- `_assign_compact_lesson`: shuffle subjects, then scan for one with a
free qualified teacher at `(day, lesson)`. -/
def assign_compact_lesson (day : String) (lesson : ℕ)
    (subjects : List Subject) (tbs : ℕ → List Teacher) (asg : AssignedMap)
    (r : Rng) : Option Assignment × Rng :=
  let sh := shuffleList subjects r
  assignLoop day lesson tbs asg sh.1 sh.2

/-- First phase placement loop of `create_random_schedule`: place up to
`desired` lessons at consecutive slots, stopping on the first failed
assignment.  `fuel` bounds the slot scan (`lessons_per_day` suffices). -/
def phase1Loop (day : String) (cid : ℕ) (subjects : List Subject)
    (tbs : ℕ → List Teacher) (L : ℕ) :
    ℕ → ℕ → ℕ → ℕ → Sched × AssignedMap × Rng → Sched × AssignedMap × Rng
  | 0, _, _, _, st => st
  | fuel + 1, slot, placed, desired, st =>
      if placed < desired ∧ slot ≤ L then
        let res := assign_compact_lesson day slot subjects tbs st.2.1 st.2.2
        match res.1 with
        | none => (st.1, st.2.1, res.2)
        | some a =>
            phase1Loop day cid subjects tbs L fuel (slot + 1) (placed + 1)
              desired
              (schedWrite st.1 day slot cid (some a),
               asgAdd st.2.1 day slot a.1, res.2)
      else st

/-- One `(class, day)` of the first phase: draw the desired lesson count,
then place compactly from slot 1. -/
def phase1ClassDay (day : String) (cid : ℕ) (subjects : List Subject)
    (tbs : ℕ → List Teacher) (L : ℕ) (st : Sched × AssignedMap × Rng) :
    Sched × AssignedMap × Rng :=
  let dc := countFillTrials L st.2.2
  let desired := min dc.1 L
  phase1Loop day cid subjects tbs L L 1 0 desired (st.1, st.2.1, dc.2)

/-- Second phase loop (minimum-fill bias): add lessons at the next free
slots until the class has 2 on this day or assignment fails. -/
def phase2Loop (day : String) (cid : ℕ) (subjects : List Subject)
    (tbs : ℕ → List Teacher) (L : ℕ) :
    ℕ → ℕ → ℕ → Sched × AssignedMap × Rng → Sched × AssignedMap × Rng
  | 0, _, _, st => st
  | fuel + 1, next_slot, missing, st =>
      if 0 < missing ∧ next_slot ≤ L then
        if (st.1 day next_slot cid).isSome then
          phase2Loop day cid subjects tbs L fuel (next_slot + 1) missing st
        else
          let res := assign_compact_lesson day next_slot subjects tbs
            st.2.1 st.2.2
          match res.1 with
          | none => (st.1, st.2.1, res.2)
          | some a =>
              phase2Loop day cid subjects tbs L fuel (next_slot + 1)
                (missing - 1)
                (schedWrite st.1 day next_slot cid (some a),
                 asgAdd st.2.1 day next_slot a.1, res.2)
      else st

/-- One `(class, day)` of the minimum-fill phase. -/
def phase2ClassDay (day : String) (cid : ℕ) (subjects : List Subject)
    (tbs : ℕ → List Teacher) (L : ℕ) (st : Sched × AssignedMap × Rng) :
    Sched × AssignedMap × Rng :=
  let current := (slotsOf L).filter (fun l => (st.1 day l cid).isSome)
  let missing := max 0 (2 - current.length)
  if missing = 0 then st
  else phase2Loop day cid subjects tbs L L (current.length + 1) missing st

/-- `create_random_schedule`: compact random phase then minimum-fill bias. -/
def create_random_schedule (classes : List SchoolClass)
    (subjects : List Subject) (tbs : ℕ → List Teacher) (days : List String)
    (L : ℕ) (r : Rng) : Sched × Rng :=
  let st1 := classes.foldl (fun st cls =>
    days.foldl (fun st2 day => phase1ClassDay day cls.id subjects tbs L st2)
      st) (emptySched, emptyAssigned, r)
  let st2 := classes.foldl (fun st cls =>
    days.foldl (fun st2 day => phase2ClassDay day cls.id subjects tbs L st2)
      st) st1
  (st2.1, st2.2.2)

/-- `initialize_population`: `population_size` independent chromosomes. -/
def initialize_population (population_size : ℕ) (classes : List SchoolClass)
    (subjects : List Subject) (tbs : ℕ → List Teacher) (days : List String)
    (L : ℕ) (r : Rng) : List Sched × Rng :=
  match population_size with
  | 0 => ([], r)
  | n + 1 =>
      let cr := create_random_schedule classes subjects tbs days L r
      let rest := initialize_population n classes subjects tbs days L cr.2
      (cr.1 :: rest.1, rest.2)

theorem choiceD_mem {α : Type} {xs : List α} (dflt : α) (r : Rng)
    (h : xs ≠ []) : (choiceD xs dflt r).1 ∈ xs := by
  unfold choiceD
  have hlen : 0 < xs.length := List.length_pos.mpr h
  have hlt : r 0 % xs.length < xs.length := Nat.mod_lt _ hlen
  rw [List.getD_eq_getElem _ _ hlt]
  exact List.getElem_mem _

theorem mem_buildTeachersBySubject {subjects : List Subject}
    {teachers : List Teacher} {sid : ℕ} {T : Teacher}
    (h : T ∈ buildTeachersBySubject subjects teachers sid) :
    T ∈ teachers ∧ sid ∈ T.subjects := by
  unfold buildTeachersBySubject at h
  by_cases hs : subjects.any (fun s => s.id = sid)
  · rw [if_pos hs] at h
    exact ⟨List.mem_of_mem_filter h, by
      have := List.of_mem_filter h
      simpa using this⟩
  · rw [if_neg hs] at h
    simp at h

theorem assignLoop_spec {day : String} {lesson : ℕ} {tbs : ℕ → List Teacher}
    {asg : AssignedMap} :
    ∀ {lst : List Subject} {r : Rng} {a : Assignment} {r' : Rng},
      assignLoop day lesson tbs asg lst r = (some a, r') →
      ∃ T ∈ tbs a.2, T.id = a.1 ∧ a.1 ∉ asg day lesson
  | [], r, a, r' => by
      intro h
      simp [assignLoop] at h
  | subj :: rest, r, a, r' => by
      intro h
      rw [assignLoop] at h
      by_cases h1 : (tbs subj.id).isEmpty
      · rw [if_pos h1] at h
        exact assignLoop_spec h
      · rw [if_neg h1] at h
        by_cases h2 : ((tbs subj.id).filter
            (fun t => t.id ∉ asg day lesson)).isEmpty
        · rw [if_pos h2] at h
          exact assignLoop_spec h
        · rw [if_neg h2] at h
          simp only [Prod.mk.injEq, Option.some.injEq] at h
          obtain ⟨rfl, -⟩ := h
          have hne : (tbs subj.id).filter
              (fun t => t.id ∉ asg day lesson) ≠ [] := by
            intro hcon
            rw [hcon] at h2
            simp at h2
          have hmem := choiceD_mem (⟨0, "", []⟩ : Teacher) r hne
          refine ⟨(choiceD ((tbs subj.id).filter
            (fun t => t.id ∉ asg day lesson)) ⟨0, "", []⟩ r).1,
            List.mem_of_mem_filter hmem, rfl, ?_⟩
          have := List.of_mem_filter hmem
          simpa using this

theorem assign_compact_lesson_spec {day : String} {lesson : ℕ}
    {subjects : List Subject} {tbs : ℕ → List Teacher} {asg : AssignedMap}
    {r : Rng} {a : Assignment} {r' : Rng}
    (h : assign_compact_lesson day lesson subjects tbs asg r = (some a, r')) :
    ∃ T ∈ tbs a.2, T.id = a.1 ∧ a.1 ∉ asg day lesson :=
  assignLoop_spec h

/-- I1-with-booking-sets invariant of initialization: per slot, the cell
teachers are distinct and all recorded in `assigned_teachers`. -/
def SlotSound (sched : Sched) (asg : AssignedMap) (ids : List ℕ) : Prop :=
  ∀ (d : String) (l : ℕ),
    (cellTeachersList (cellsAt sched d l ids)).Nodup ∧
    ∀ t ∈ cellTeachersList (cellsAt sched d l ids), t ∈ asg d l

/-- I2 invariant: every cell pairs a teacher with a subject they teach. -/
def QualSound (teachers : List Teacher) (sched : Sched) : Prop :=
  ∀ (d : String) (l c t sub : ℕ), sched d l c = some (t, sub) →
    ∃ T ∈ teachers, T.id = t ∧ sub ∈ T.subjects

theorem SlotSound_write {sched : Sched} {asg : AssignedMap} {ids : List ℕ}
    (hnd : ids.Nodup) (h : SlotSound sched asg ids) (d0 : String)
    (l0 c0 tid sid : ℕ) (htid : tid ∉ asg d0 l0) :
    SlotSound (schedWrite sched d0 l0 c0 (some (tid, sid)))
      (asgAdd asg d0 l0 tid) ids := by
  intro d l
  by_cases hdl : d = d0 ∧ l = l0
  case neg =>
    have hcells : cellsAt (schedWrite sched d0 l0 c0 (some (tid, sid))) d l
        ids = cellsAt sched d l ids := by
      apply cellsAt_congr
      intro c _
      rw [schedWrite, if_neg]
      rintro ⟨rfl, rfl, -⟩
      exact hdl ⟨rfl, rfl⟩
    have hasg : asgAdd asg d0 l0 tid d l = asg d l := by
      rw [asgAdd, if_neg hdl]
    rw [hcells, hasg]
    exact h d l
  case pos =>
  obtain ⟨rfl, rfl⟩ := hdl
  have hasg : asgAdd asg d l tid d l = tid :: asg d l := by
    rw [asgAdd, if_pos ⟨rfl, rfl⟩]
  rw [hasg]
  by_cases hc0 : c0 ∈ ids
  case neg =>
    have hcells : cellsAt (schedWrite sched d l c0 (some (tid, sid))) d l
        ids = cellsAt sched d l ids := by
      apply cellsAt_congr
      intro c hc
      rw [schedWrite, if_neg]
      rintro ⟨-, -, rfl⟩
      exact hc0 hc
    rw [hcells]
    exact ⟨(h d l).1, fun t ht => List.mem_cons_of_mem _ ((h d l).2 t ht)⟩
  case pos =>
  obtain ⟨u, v, hids⟩ := List.append_of_mem hc0
  subst hids
  have hu : c0 ∉ u := by
    rw [List.nodup_append] at hnd
    intro hc
    exact hnd.2.2 hc (List.mem_cons_self c0 v)
  have hv : c0 ∉ v := by
    rw [List.nodup_append] at hnd
    exact (List.nodup_cons.mp hnd.2.1).1
  have hcellu : cellsAt (schedWrite sched d l c0 (some (tid, sid))) d l u =
      cellsAt sched d l u := by
    apply cellsAt_congr
    intro c hc
    rw [schedWrite, if_neg]
    rintro ⟨-, -, rfl⟩
    exact hu hc
  have hcellv : cellsAt (schedWrite sched d l c0 (some (tid, sid))) d l v =
      cellsAt sched d l v := by
    apply cellsAt_congr
    intro c hc
    rw [schedWrite, if_neg]
    rintro ⟨-, -, rfl⟩
    exact hv hc
  have hnew : schedWrite sched d l c0 (some (tid, sid)) d l c0 =
      some (tid, sid) := by
    rw [schedWrite, if_pos ⟨rfl, rfl, rfl⟩]
  have hsplitNew := cellTeachersList_split
    (schedWrite sched d l c0 (some (tid, sid))) d l u v c0
  have hsplitOld := cellTeachersList_split sched d l u v c0
  rw [hsplitNew, hcellu, hcellv, hnew]
  have hsubOld : ∀ t, t ∈ cellTeachersList (cellsAt sched d l u) ∨
      t ∈ cellTeachersList (cellsAt sched d l v) → t ∈ asg d l := by
    intro t ht
    refine (h d l).2 t ?_
    rw [hsplitOld]
    rcases ht with ht | ht
    · exact List.mem_append.mpr (Or.inl ht)
    · exact List.mem_append.mpr (Or.inr (List.mem_append.mpr (Or.inr ht)))
  have htid_fresh : tid ∉ cellTeachersList (cellsAt sched d l u) ++
      cellTeachersList (cellsAt sched d l v) := by
    intro hc
    rcases List.mem_append.mp hc with hc | hc
    · exact htid (hsubOld tid (Or.inl hc))
    · exact htid (hsubOld tid (Or.inr hc))
  have holdNodup : (cellTeachersList (cellsAt sched d l u) ++
      cellTeachersList (cellsAt sched d l v)).Nodup := by
    have h0 := (h d l).1
    rw [hsplitOld] at h0
    cases hcell : sched d l c0 with
    | none =>
        rw [hcell] at h0
        simpa [optTeacher] using h0
    | some a =>
        rw [hcell] at h0
        simp only [optTeacher] at h0
        have h1 : (cellTeachersList (cellsAt sched d l u) ++ a.1 ::
            cellTeachersList (cellsAt sched d l v)).Nodup := by
          simpa using h0
        exact (List.nodup_cons.mp (List.nodup_middle.mp h1)).2
  constructor
  · show (cellTeachersList (cellsAt sched d l u) ++ (optTeacher (some
      (tid, sid)) ++ cellTeachersList (cellsAt sched d l v))).Nodup
    simp only [optTeacher, List.singleton_append]
    exact List.nodup_middle.mpr (List.nodup_cons.mpr ⟨htid_fresh, holdNodup⟩)
  · intro t ht
    simp only [optTeacher] at ht
    rcases List.mem_append.mp ht with ht | ht
    · exact List.mem_cons_of_mem _ (hsubOld t (Or.inl ht))
    · rcases List.mem_cons.mp ht with rfl | ht
      · exact List.mem_cons_self _ _
      · exact List.mem_cons_of_mem _ (hsubOld t (Or.inr ht))

theorem QualSound_write {teachers : List Teacher} {sched : Sched}
    (h : QualSound teachers sched) (d0 : String) (l0 c0 : ℕ)
    (v : Option Assignment)
    (hv : ∀ t sub, v = some (t, sub) →
      ∃ T ∈ teachers, T.id = t ∧ sub ∈ T.subjects) :
    QualSound teachers (schedWrite sched d0 l0 c0 v) := by
  intro d l c t sub hcell
  rw [schedWrite] at hcell
  by_cases hcond : d = d0 ∧ l = l0 ∧ c = c0
  · rw [if_pos hcond] at hcell
    exact hv t sub hcell
  · rw [if_neg hcond] at hcell
    exact h d l c t sub hcell

/-- Combined initialization invariant on a loop state. -/
def InitInv (teachers : List Teacher) (ids : List ℕ)
    (st : Sched × AssignedMap × Rng) : Prop :=
  SlotSound st.1 st.2.1 ids ∧ QualSound teachers st.1

theorem InitInv_step {teachers : List Teacher} {ids : List ℕ}
    {tbs : ℕ → List Teacher}
    (htbs : ∀ sid T, T ∈ tbs sid → T ∈ teachers ∧ sid ∈ T.subjects)
    (hnd : ids.Nodup) {sched : Sched} {asg : AssignedMap} {r r' : Rng}
    {day : String} {slot cid : ℕ} {subjects : List Subject} {a : Assignment}
    (hinv : InitInv teachers ids (sched, asg, r))
    (hass : assign_compact_lesson day slot subjects tbs asg r = (some a, r')) :
    InitInv teachers ids
      (schedWrite sched day slot cid (some a), asgAdd asg day slot a.1, r') := by
  obtain ⟨T, hT, hTid, hfree⟩ := assign_compact_lesson_spec hass
  constructor
  · exact SlotSound_write hnd hinv.1 day slot cid a.1 a.2 hfree
  · refine QualSound_write hinv.2 day slot cid (some a) ?_
    rintro t sub h
    obtain ⟨rfl, rfl⟩ : a.1 = t ∧ a.2 = sub := by
      constructor <;> (cases a; simp_all)
    exact ⟨T, (htbs _ T hT).1, hTid, (htbs _ T hT).2⟩

theorem phase1Loop_inv {teachers : List Teacher} {ids : List ℕ}
    {tbs : ℕ → List Teacher} {subjects : List Subject} {day : String}
    {cid L : ℕ}
    (htbs : ∀ sid T, T ∈ tbs sid → T ∈ teachers ∧ sid ∈ T.subjects)
    (hnd : ids.Nodup) :
    ∀ (fuel slot placed desired : ℕ) (st : Sched × AssignedMap × Rng),
      InitInv teachers ids st →
      InitInv teachers ids
        (phase1Loop day cid subjects tbs L fuel slot placed desired st)
  | 0, _, _, _, st, hinv => hinv
  | fuel + 1, slot, placed, desired, st, hinv => by
      rw [phase1Loop]
      by_cases hcond : placed < desired ∧ slot ≤ L
      · rw [if_pos hcond]
        dsimp only
        cases hass : (assign_compact_lesson day slot subjects tbs
            st.2.1 st.2.2).1 with
        | none => exact ⟨hinv.1, hinv.2⟩
        | some a =>
            apply phase1Loop_inv htbs hnd fuel
            exact InitInv_step htbs hnd
              (show InitInv teachers ids (st.1, st.2.1, st.2.2) from hinv)
              (Prod.ext hass rfl)
      · rw [if_neg hcond]
        exact hinv

theorem phase2Loop_inv {teachers : List Teacher} {ids : List ℕ}
    {tbs : ℕ → List Teacher} {subjects : List Subject} {day : String}
    {cid L : ℕ}
    (htbs : ∀ sid T, T ∈ tbs sid → T ∈ teachers ∧ sid ∈ T.subjects)
    (hnd : ids.Nodup) :
    ∀ (fuel next_slot missing : ℕ) (st : Sched × AssignedMap × Rng),
      InitInv teachers ids st →
      InitInv teachers ids
        (phase2Loop day cid subjects tbs L fuel next_slot missing st)
  | 0, _, _, st, hinv => hinv
  | fuel + 1, next_slot, missing, st, hinv => by
      rw [phase2Loop]
      by_cases hcond : 0 < missing ∧ next_slot ≤ L
      · rw [if_pos hcond]
        by_cases hocc : (st.1 day next_slot cid).isSome
        · rw [if_pos hocc]
          exact phase2Loop_inv htbs hnd fuel _ _ st hinv
        · rw [if_neg hocc]
          dsimp only
          cases hass : (assign_compact_lesson day next_slot subjects tbs
              st.2.1 st.2.2).1 with
          | none => exact ⟨hinv.1, hinv.2⟩
          | some a =>
              apply phase2Loop_inv htbs hnd fuel
              exact InitInv_step htbs hnd
                (show InitInv teachers ids (st.1, st.2.1, st.2.2) from hinv)
                (Prod.ext hass rfl)
      · rw [if_neg hcond]
        exact hinv

theorem create_random_schedule_inv {teachers : List Teacher} {ids : List ℕ}
    {tbs : ℕ → List Teacher} {subjects : List Subject}
    {classes : List SchoolClass} {days : List String} {L : ℕ} {r : Rng}
    (htbs : ∀ sid T, T ∈ tbs sid → T ∈ teachers ∧ sid ∈ T.subjects)
    (hnd : ids.Nodup) :
    (∀ (d : String) (l : ℕ), (cellTeachersList (cellsAt
      (create_random_schedule classes subjects tbs days L r).1 d l
        ids)).Nodup) ∧
    QualSound teachers (create_random_schedule classes subjects tbs days L
      r).1 := by
  have hbase : InitInv teachers ids (emptySched, emptyAssigned, r) := by
    constructor
    · intro d l
      have : cellTeachersList (cellsAt emptySched d l ids) = [] := by
        unfold cellTeachersList cellsAt emptySched
        induction ids with
        | nil => simp
        | cons c cs ih => simpa using ih
      rw [this]
      exact ⟨List.nodup_nil, by simp⟩
    · intro d l c t sub h
      exact absurd h (by simp [emptySched])
  have hfold : ∀ (phase : String → ℕ →
      Sched × AssignedMap × Rng → Sched × AssignedMap × Rng),
      (∀ day cid st, InitInv teachers ids st →
        InitInv teachers ids (phase day cid st)) →
      ∀ (cs : List SchoolClass) (st : Sched × AssignedMap × Rng),
        InitInv teachers ids st →
        InitInv teachers ids (cs.foldl (fun st2 cls =>
          days.foldl (fun st3 day => phase day cls.id st3) st2) st) := by
    intro phase hphase cs
    induction cs with
    | nil => intro st h; exact h
    | cons cls cs ih =>
        intro st h
        rw [List.foldl_cons]
        apply ih
        have : ∀ (ds : List String) (st2 : Sched × AssignedMap × Rng),
            InitInv teachers ids st2 →
            InitInv teachers ids (ds.foldl (fun st3 day =>
              phase day cls.id st3) st2) := by
          intro ds
          induction ds with
          | nil => intro st2 h2; exact h2
          | cons d ds ihd =>
              intro st2 h2
              rw [List.foldl_cons]
              exact ihd _ (hphase d cls.id st2 h2)
        exact this days st h
  have h1 : ∀ day cid st, InitInv teachers ids st →
      InitInv teachers ids (phase1ClassDay day cid subjects tbs L st) := by
    intro day cid st h
    unfold phase1ClassDay
    exact phase1Loop_inv htbs hnd L 1 0 _ _ ⟨h.1, h.2⟩
  have h2 : ∀ day cid st, InitInv teachers ids st →
      InitInv teachers ids (phase2ClassDay day cid subjects tbs L st) := by
    intro day cid st h
    unfold phase2ClassDay
    by_cases hmiss : max 0 (2 - ((slotsOf L).filter
        (fun l => (st.1 day l cid).isSome)).length) = 0
    · rw [if_pos hmiss]; exact h
    · rw [if_neg hmiss]
      exact phase2Loop_inv htbs hnd L _ _ st h
  have hres : InitInv teachers ids
      (classes.foldl (fun st cls => days.foldl (fun st2 day =>
        phase2ClassDay day cls.id subjects tbs L st2) st)
        (classes.foldl (fun st cls => days.foldl (fun st2 day =>
          phase1ClassDay day cls.id subjects tbs L st2) st)
          (emptySched, emptyAssigned, r))) :=
    hfold _ h2 classes _ (hfold _ h1 classes _ hbase)
  exact ⟨fun d l => (hres.1 d l).1, hres.2⟩

theorem qualLookup_eq_of_nodup {teachers : List Teacher}
    (hnd : (teachers.map Teacher.id).Nodup) {T : Teacher}
    (hT : T ∈ teachers) : qualLookup teachers T.id = T.subjects := by
  unfold qualLookup teachersById
  have hTmem : T ∈ teachers.reverse := List.mem_reverse.mpr hT
  cases hfind : teachers.reverse.find? (fun t => t.id = T.id) with
  | none =>
      rw [List.find?_eq_none] at hfind
      exact absurd (by simp : (decide (T.id = T.id)) = true)
        (by simpa using hfind T hTmem)
  | some T' =>
      have hmem' : T' ∈ teachers := List.mem_reverse.mp
        (List.mem_of_find?_eq_some hfind)
      have hid : T'.id = T.id := by
        have := List.find?_some hfind
        simpa using this
      have : T' = T := by
        have hinj := List.inj_on_of_nodup_map hnd
        exact hinj hmem' hT hid
      rw [this]
      rfl

theorem count_teacher_conflicts_zero_of_sound {sched : Sched}
    {teachers : List Teacher} {ids : List ℕ} (days : List String) (L : ℕ)
    (hndT : (teachers.map Teacher.id).Nodup)
    (h1 : ∀ (d : String) (l : ℕ),
      (cellTeachersList (cellsAt sched d l ids)).Nodup)
    (h2 : QualSound teachers sched) :
    count_teacher_conflicts sched (qualLookup teachers) days L ids = 0 := by
  unfold count_teacher_conflicts
  apply List.sum_eq_zero
  intro x hx
  obtain ⟨d, -, rfl⟩ := List.mem_map.mp hx
  apply List.sum_eq_zero
  intro y hy
  obtain ⟨l, -, rfl⟩ := List.mem_map.mp hy
  rw [slotConflictLoop_decomp]
  have hdup : dupCount (cellTeachersList (cellsAt sched d l ids)) = 0 := by
    rw [dupCount_eq, List.toFinset_card_of_nodup (h1 d l)]
    omega
  have hqual : qualCount (qualLookup teachers)
      (cellsAt sched d l ids) = 0 := by
    unfold qualCount
    apply List.sum_eq_zero
    intro z hz
    obtain ⟨a, ha, rfl⟩ := List.mem_map.mp hz
    obtain ⟨⟨c, o⟩, hcell, ho⟩ := List.mem_filterMap.mp ha
    simp only at ho
    subst ho
    obtain ⟨c', -, hc'⟩ := List.mem_map.mp hcell
    have hcelleq : sched d l c = some a := by
      have h1 : c' = c := congrArg Prod.fst hc'
      have h2 : sched d l c' = some a := congrArg Prod.snd hc'
      rw [← h1]; exact h2
    obtain ⟨T, hT, hTid, hsub⟩ := h2 d l c a.1 a.2 (by
      rw [hcelleq])
    unfold qualPenalty
    rw [if_pos]
    rw [← hTid, qualLookup_eq_of_nodup hndT hT]
    exact hsub
  simp only [List.map_nil]
  rw [hqual]
  show 0 + dupCount (cellTeachersList (cellsAt sched d l ids)) = 0
  rw [hdup]

/-- Decidable statement of I1 over the engine's days, slots and classes:
no teacher id occupies more than one cell of any `(day, slot)`. -/
def i1B (s : Sched) (days : List String) (L : ℕ) (ids : List ℕ) : Bool :=
  days.all (fun d => (slotsOf L).all (fun l =>
    (cellTeachersList (cellsAt s d l ids)).Nodup))

/-- Decidable statement of I2: every assignment pairs a subject with a
teacher qualified for it. -/
def i2B (s : Sched) (teachers : List Teacher) (days : List String) (L : ℕ)
    (ids : List ℕ) : Bool :=
  days.all (fun d => (slotsOf L).all (fun l => ids.all (fun c =>
    match s d l c with
    | some a => teachers.any (fun T => T.id = a.1 ∧ a.2 ∈ T.subjects)
    | none => true)))

theorem initialize_population_mem {classes : List SchoolClass}
    {subjects : List Subject} {tbs : ℕ → List Teacher} {days : List String}
    {L : ℕ} :
    ∀ {population_size : ℕ} {r : Rng} {s : Sched},
      s ∈ (initialize_population population_size classes subjects tbs days L
        r).1 →
      ∃ r0 : Rng, s = (create_random_schedule classes subjects tbs days L
        r0).1
  | 0, r, s => by
      intro h
      simp [initialize_population] at h
  | n + 1, r, s => by
      intro h
      rw [initialize_population] at h
      rcases List.mem_cons.mp h with rfl | h'
      · exact ⟨r, rfl⟩
      · exact initialize_population_mem h'

/-- C7: every schedule produced by population initialization satisfies I1
within each slot and I2 everywhere, and its teacher-conflict count is 0. -/
theorem initialize_population_no_conflicts (population_size : ℕ)
    (classes : List SchoolClass) (subjects : List Subject)
    (teachers : List Teacher) (days : List String) (L : ℕ) (r : Rng)
    (hndT : (teachers.map Teacher.id).Nodup)
    (hndC : (classes.map SchoolClass.id).Nodup) (s : Sched)
    (hs : s ∈ (initialize_population population_size classes subjects
      (buildTeachersBySubject subjects teachers) days L r).1) :
    i1B s days L (classes.map SchoolClass.id) = true ∧
    i2B s teachers days L (classes.map SchoolClass.id) = true ∧
    count_teacher_conflicts s (qualLookup teachers) days L
      (classes.map SchoolClass.id) = 0 := by
  obtain ⟨r0, rfl⟩ := initialize_population_mem hs
  have htbs : ∀ sid T, T ∈ buildTeachersBySubject subjects teachers sid →
      T ∈ teachers ∧ sid ∈ T.subjects :=
    fun sid T hT => mem_buildTeachersBySubject hT
  obtain ⟨h1, h2⟩ := @create_random_schedule_inv teachers
    (classes.map SchoolClass.id) (buildTeachersBySubject subjects teachers)
    subjects classes days L r0 htbs hndC
  refine ⟨?_, ?_, ?_⟩
  · unfold i1B
    simp only [List.all_eq_true, decide_eq_true_eq]
    intro d _ l _
    exact h1 d l
  · unfold i2B
    simp only [List.all_eq_true]
    intro d _ l _ c _
    cases hcell : (create_random_schedule classes subjects
        (buildTeachersBySubject subjects teachers) days L r0).1 d l c with
    | none => simp
    | some a =>
        simp only [List.any_eq_true, decide_eq_true_eq]
        obtain ⟨T, hT, hTid, hsub⟩ := h2 d l c a.1 a.2 (by rw [hcell])
        exact ⟨T, hT, hTid, hsub⟩
  · exact count_teacher_conflicts_zero_of_sound days L hndT h1 h2

/-- Concrete dataset for initialization and mutation witnesses. -/
def wClasses : List SchoolClass := [⟨1, "1A"⟩]

/-- Concrete subjects for the witnesses. -/
def wSubjects : List Subject := [⟨10, "Math"⟩]

/-- Concrete teachers for the witnesses. -/
def wTeachers : List Teacher := [⟨1, "T", [10]⟩]

/-- Concrete random stream for the witnesses. -/
def wRng : Rng := fun _ => 0

/-- Witness for `initialize_population_no_conflicts` on a one-teacher,
one-class dataset. -/
theorem initialize_population_no_conflicts_witness :
    ((wTeachers.map Teacher.id).Nodup ∧
      (wClasses.map SchoolClass.id).Nodup ∧
      (create_random_schedule wClasses wSubjects
        (buildTeachersBySubject wSubjects wTeachers) ["Monday"] 2 wRng).1 ∈
        (initialize_population 1 wClasses wSubjects
          (buildTeachersBySubject wSubjects wTeachers) ["Monday"] 2
          wRng).1) ∧
    (i1B (create_random_schedule wClasses wSubjects
        (buildTeachersBySubject wSubjects wTeachers) ["Monday"] 2 wRng).1
        ["Monday"] 2 (wClasses.map SchoolClass.id) = true ∧
     i2B (create_random_schedule wClasses wSubjects
        (buildTeachersBySubject wSubjects wTeachers) ["Monday"] 2 wRng).1
        wTeachers ["Monday"] 2 (wClasses.map SchoolClass.id) = true ∧
     count_teacher_conflicts (create_random_schedule wClasses wSubjects
        (buildTeachersBySubject wSubjects wTeachers) ["Monday"] 2 wRng).1
        (qualLookup wTeachers) ["Monday"] 2
        (wClasses.map SchoolClass.id) = 0) :=
  ⟨⟨by decide, by decide, List.mem_cons_self _ _⟩,
    initialize_population_no_conflicts 1 wClasses wSubjects wTeachers
      ["Monday"] 2 wRng (by decide) (by decide) _
      (List.mem_cons_self _ _)⟩

/-! ### Mutation (`GeneticScheduler.mutate` and `compact_mutation`) -/

/-- The busy check of `compact_mutation`'s placement loop: it scans all
classes (its own cells are cleared while it runs). -/
def teacherBusyAnyClass (s : Sched) (day : String) (slot t : ℕ)
    (ids : List ℕ) : Bool :=
  ids.any (fun c => cellUsesTeacher (s day slot c) t)

/-- First slot in `range(new_lesson, lessons_per_day + 1)` that passes the
busy check. -/
def findSlotAnyClass (s : Sched) (day : String) (t next L : ℕ)
    (ids : List ℕ) : Option ℕ :=
  (List.range' next (L + 1 - next)).find?
    (fun l => !(teacherBusyAnyClass s day l t ids))

/-- Placement loop of `compact_mutation`: place each collected lesson at the
first free slot from `new_lesson` on, or put it back at its original slot.
Unlike `try_compact_placement` this mutates the schedule as it goes. -/
def cmPlaceLoop (day : String) (cid L : ℕ) (ids : List ℕ) :
    List (ℕ × Assignment) → ℕ → Sched → Sched
  | [], _, s => s
  | (orig, a) :: rest, next, s =>
      match findSlotAnyClass s day a.1 next L ids with
      | some l =>
          cmPlaceLoop day cid L ids rest (l + 1)
            (schedWrite s day l cid (some a))
      | none =>
          cmPlaceLoop day cid L ids rest next
            (schedWrite s day orig cid (some a))

/-- One `(class, day)` of `compact_mutation`: collect, clear, re-place. -/
def cmClassDay (day : String) (cid L : ℕ) (ids : List ℕ) (s : Sched) :
    Sched :=
  let ld := lessonsData s day cid L
  if ld.isEmpty then s
  else cmPlaceLoop day cid L ids ld 1 (clearClassDay s day cid L)

/-- `compact_mutation` from `src/services/ga/schedule_compaction.py`:
shift lessons toward slot 1 for 2..5 sampled classes on 2..4 sampled days. -/
def compact_mutation (s : Sched) (days : List String) (L : ℕ)
    (classes : List SchoolClass) (r : Rng) : Sched × Rng :=
  let ids := classes.map SchoolClass.id
  let nc := randint 2 (min 5 classes.length) r
  let sc := sampleList classes nc.1 nc.2
  sc.1.foldl (fun (acc : Sched × Rng) cls =>
    let nd := randint 2 (min 4 days.length) acc.2
    let sd := sampleList days nd.1 nd.2
    (sd.1.foldl (fun σ day => cmClassDay day cls.id L ids σ) acc.1, sd.2))
    (s, sc.2)

/-- The `num_mutations` random point edits of the standard mutation arm. -/
def pointMutations (days : List String) (L : ℕ)
    (classes : List SchoolClass) (subjects : List Subject)
    (tbs : ℕ → List Teacher) : ℕ → Sched → Rng → Sched × Rng
  | 0, s, r => (s, r)
  | k + 1, s, r =>
      let d := choiceD days "" r
      let ln := randint 1 L d.2
      let c := choiceD classes ⟨0, ""⟩ ln.2
      let h := randFloat c.2
      if h.1 < 5/10 then
        pointMutations days L classes subjects tbs k
          (schedWrite s d.1 ln.1 c.1.id none) h.2
      else
        let subj := choiceD subjects ⟨0, ""⟩ h.2
        let avail := tbs subj.1.id
        if avail.isEmpty then
          pointMutations days L classes subjects tbs k s subj.2
        else
          let t := choiceD avail ⟨0, "", []⟩ subj.2
          pointMutations days L classes subjects tbs k
            (schedWrite s d.1 ln.1 c.1.id (some (t.1.id, subj.1.id))) t.2

/-- `GeneticScheduler.mutate`: 60% compaction mutation, otherwise 1..5
random point edits. -/
def mutate (days : List String) (L : ℕ) (classes : List SchoolClass)
    (subjects : List Subject) (tbs : ℕ → List Teacher) (s : Sched)
    (r : Rng) : Sched × Rng :=
  let f := randFloat r
  if f.1 < 6/10 then compact_mutation s days L classes f.2
  else
    let nm := randint 1 5 f.2
    pointMutations days L classes subjects tbs nm.1 s nm.2

/-- Propositional form of `i2B`. -/
def I2Sched (teachers : List Teacher) (s : Sched) (days : List String)
    (L : ℕ) (ids : List ℕ) : Prop :=
  ∀ d ∈ days, ∀ l ∈ slotsOf L, ∀ c ∈ ids, ∀ t sub : ℕ,
    s d l c = some (t, sub) → ∃ T ∈ teachers, T.id = t ∧ sub ∈ T.subjects

theorem i2B_iff (s : Sched) (teachers : List Teacher) (days : List String)
    (L : ℕ) (ids : List ℕ) :
    i2B s teachers days L ids = true ↔ I2Sched teachers s days L ids := by
  unfold i2B I2Sched
  simp only [List.all_eq_true]
  constructor
  · intro h d hd l hl c hc t sub hcell
    have := h d hd l hl c hc
    rw [hcell] at this
    simpa using this
  · intro h d hd l hl c hc
    cases hcell : s d l c with
    | none => simp
    | some a =>
        simp only [List.any_eq_true, decide_eq_true_eq]
        exact h d hd l hl c hc a.1 a.2 (by rw [hcell])

/-- Writing a qualified assignment (or clearing a cell) anywhere preserves
I2. -/
theorem I2Sched_write_qualified {teachers : List Teacher} {s : Sched}
    {days : List String} {L : ℕ} {ids : List ℕ}
    (h : I2Sched teachers s days L ids) (d0 : String) (l0 c0 : ℕ)
    (v : Option Assignment)
    (hv : ∀ t sub, v = some (t, sub) →
      ∃ T ∈ teachers, T.id = t ∧ sub ∈ T.subjects) :
    I2Sched teachers (schedWrite s d0 l0 c0 v) days L ids := by
  intro d hd l hl c hc t sub hcell
  rw [schedWrite] at hcell
  by_cases hcond : d = d0 ∧ l = l0 ∧ c = c0
  · rw [if_pos hcond] at hcell
    exact hv t sub hcell
  · rw [if_neg hcond] at hcell
    exact h d hd l hl c hc t sub hcell

/-- Writing outside the observed region preserves I2 regardless of value. -/
theorem I2Sched_write_outside {teachers : List Teacher} {s : Sched}
    {days : List String} {L : ℕ} {ids : List ℕ}
    (h : I2Sched teachers s days L ids) (d0 : String) (l0 c0 : ℕ)
    (v : Option Assignment) (hpos : d0 ∉ days ∨ c0 ∉ ids) :
    I2Sched teachers (schedWrite s d0 l0 c0 v) days L ids := by
  intro d hd l hl c hc t sub hcell
  rw [schedWrite] at hcell
  by_cases hcond : d = d0 ∧ l = l0 ∧ c = c0
  · obtain ⟨rfl, rfl, rfl⟩ := hcond
    rcases hpos with hpos | hpos
    · exact absurd hd hpos
    · exact absurd hc hpos
  · rw [if_neg hcond] at hcell
    exact h d hd l hl c hc t sub hcell

theorem I2Sched_clear {teachers : List Teacher} {s : Sched}
    {days : List String} {L : ℕ} {ids : List ℕ}
    (h : I2Sched teachers s days L ids) (day : String) (cid L' : ℕ) :
    I2Sched teachers (clearClassDay s day cid L') days L ids := by
  intro d hd l hl c hc t sub hcell
  rw [clearClassDay] at hcell
  by_cases hcond : d = day ∧ c = cid ∧ 1 ≤ l ∧ l ≤ L'
  · rw [if_pos hcond] at hcell
    exact absurd hcell (by simp)
  · rw [if_neg hcond] at hcell
    exact h d hd l hl c hc t sub hcell

theorem cmPlaceLoop_I2 {teachers : List Teacher} {days : List String}
    {L0 : ℕ} {ids0 : List ℕ} (day : String) (cid L : ℕ) (ids : List ℕ)
    (hcase : (day ∈ days ∧ cid ∈ ids0) → True) :
    ∀ (ld : List (ℕ × Assignment)) (next : ℕ) (s : Sched),
      I2Sched teachers s days L0 ids0 →
      ((∀ q ∈ ld, ∃ T ∈ teachers, T.id = q.2.1 ∧ q.2.2 ∈ T.subjects) ∨
        (day ∉ days ∨ cid ∉ ids0)) →
      I2Sched teachers (cmPlaceLoop day cid L ids ld next s) days L0 ids0
  | [], _, s, hI2, _ => hI2
  | (orig, a) :: rest, next, s, hI2, hq => by
      rw [cmPlaceLoop]
      have hwrite : ∀ (l0 : ℕ),
          I2Sched teachers (schedWrite s day l0 cid (some a)) days L0 ids0 := by
        intro l0
        rcases hq with hq | hq
        · refine I2Sched_write_qualified hI2 day l0 cid (some a) ?_
          rintro t sub hts
          obtain ⟨rfl, rfl⟩ : a.1 = t ∧ a.2 = sub := by
            constructor <;> (cases a; simp_all)
          exact hq (orig, a) (List.mem_cons_self _ _)
        · exact I2Sched_write_outside hI2 day l0 cid (some a) hq
      have hrest : (∀ q ∈ rest, ∃ T ∈ teachers, T.id = q.2.1 ∧
          q.2.2 ∈ T.subjects) ∨ (day ∉ days ∨ cid ∉ ids0) := by
        rcases hq with hq | hq
        · exact Or.inl (fun q hqm => hq q (List.mem_cons_of_mem _ hqm))
        · exact Or.inr hq
      cases findSlotAnyClass s day a.1 next L ids with
      | some l =>
          exact cmPlaceLoop_I2 day cid L ids hcase rest (l + 1) _
            (hwrite l) hrest
      | none =>
          exact cmPlaceLoop_I2 day cid L ids hcase rest next _
            (hwrite orig) hrest

theorem cmClassDay_I2 {teachers : List Teacher} {days : List String}
    {L0 : ℕ} {ids0 : List ℕ} (day : String) (cid L : ℕ) (ids : List ℕ)
    (hL : L = L0) (s : Sched) (hI2 : I2Sched teachers s days L0 ids0) :
    I2Sched teachers (cmClassDay day cid L ids s) days L0 ids0 := by
  subst hL
  rw [cmClassDay]
  by_cases hempty : (lessonsData s day cid L).isEmpty = true
  · rw [if_pos hempty]
    exact hI2
  · rw [if_neg hempty]
    by_cases hin : day ∈ days ∧ cid ∈ ids0
    · refine cmPlaceLoop_I2 day cid L ids (fun _ => trivial) _ 1 _
        (I2Sched_clear hI2 day cid L) (Or.inl ?_)
      intro q hqm
      have hm := mem_lessonsData.mp (show (q.1, q.2) ∈ _ from hqm)
      exact hI2 day hin.1 q.1 hm.1 cid hin.2 q.2.1 q.2.2 (by
        rw [hm.2])
    · refine cmPlaceLoop_I2 day cid L ids (fun _ => trivial) _ 1 _
        (I2Sched_clear hI2 day cid L) (Or.inr ?_)
      by_cases hd : day ∈ days
      · exact Or.inr (fun hc => hin ⟨hd, hc⟩)
      · exact Or.inl hd

theorem compact_mutation_I2 {teachers : List Teacher} {days0 : List String}
    {ids0 : List ℕ} (s : Sched) (days : List String) (L : ℕ)
    (classes : List SchoolClass) (r : Rng)
    (hI2 : I2Sched teachers s days0 L ids0) :
    I2Sched teachers (compact_mutation s days L classes r).1 days0 L ids0 := by
  rw [compact_mutation]
  generalize (sampleList classes
    (randint 2 (min 5 classes.length) r).1
    (randint 2 (min 5 classes.length) r).2).1 = cs
  generalize (sampleList classes
    (randint 2 (min 5 classes.length) r).1
    (randint 2 (min 5 classes.length) r).2).2 = r0
  induction cs generalizing s r0 with
  | nil => exact hI2
  | cons cls cs ih =>
      rw [List.foldl_cons]
      apply ih
      generalize (sampleList days
        (randint 2 (min 4 days.length) r0).1
        (randint 2 (min 4 days.length) r0).2).1 = ds
      induction ds generalizing s with
      | nil => exact hI2
      | cons d ds ihd =>
          rw [List.foldl_cons]
          exact ihd _ (cmClassDay_I2 d cls.id L
            (classes.map SchoolClass.id) rfl s hI2)

theorem pointMutations_I2 {teachers : List Teacher} {days0 : List String}
    {ids0 : List ℕ} (days : List String) (L : ℕ)
    (classes : List SchoolClass) (subjects : List Subject) :
    ∀ (k : ℕ) (s : Sched) (r : Rng),
      I2Sched teachers s days0 L ids0 →
      I2Sched teachers (pointMutations days L classes subjects
        (buildTeachersBySubject subjects teachers) k s r).1 days0 L ids0
  | 0, s, r, hI2 => hI2
  | k + 1, s, r, hI2 => by
      rw [pointMutations]
      by_cases hh : (randFloat (choiceD classes ⟨0, ""⟩
          (randint 1 L (choiceD days "" r).2).2).2).1 < 5/10
      · rw [if_pos hh]
        exact pointMutations_I2 days L classes subjects k _ _
          (I2Sched_write_qualified hI2 _ _ _ none (by simp))
      · rw [if_neg hh]
        by_cases hav : (buildTeachersBySubject subjects teachers
            (choiceD subjects ⟨0, ""⟩ (randFloat (choiceD classes ⟨0, ""⟩
              (randint 1 L (choiceD days "" r).2).2).2).2).1.id).isEmpty
        · rw [if_pos hav]
          exact pointMutations_I2 days L classes subjects k _ _ hI2
        · rw [if_neg hav]
          apply pointMutations_I2 days L classes subjects k
          refine I2Sched_write_qualified hI2 _ _ _ _ ?_
          intro t sub hts
          have hne : buildTeachersBySubject subjects teachers
              (choiceD subjects ⟨0, ""⟩ (randFloat (choiceD classes ⟨0, ""⟩
                (randint 1 L (choiceD days "" r).2).2).2).2).1.id ≠ [] := by
            intro hc
            exact hav (by rw [hc]; rfl)
          have hchosen := choiceD_mem (⟨0, "", []⟩ : Teacher)
            (choiceD subjects ⟨0, ""⟩ (randFloat (choiceD classes ⟨0, ""⟩
              (randint 1 L (choiceD days "" r).2).2).2).2).2 hne
          obtain ⟨hmem, hqual⟩ := mem_buildTeachersBySubject hchosen
          obtain ⟨rfl, rfl⟩ : _ ∧ _ := by
            have := Option.some.inj hts
            exact ⟨congrArg Prod.fst this, congrArg Prod.snd this⟩
          exact ⟨_, hmem, rfl, hqual⟩

/-- C10: `mutate` preserves the qualification invariant I2 — every
assignment the point arm writes pairs a subject with a teacher drawn from
`teachers_by_subject` for that subject, and the compaction arm only moves
existing assignments. -/
theorem mutate_preserves_qualification (days : List String) (L : ℕ)
    (classes : List SchoolClass) (subjects : List Subject)
    (teachers : List Teacher) (s : Sched) (r : Rng)
    (h : i2B s teachers days L (classes.map SchoolClass.id) = true) :
    i2B (mutate days L classes subjects
      (buildTeachersBySubject subjects teachers) s r).1 teachers days L
      (classes.map SchoolClass.id) = true := by
  rw [i2B_iff] at h ⊢
  rw [mutate]
  by_cases hf : (randFloat r).1 < 6/10
  · rw [if_pos hf]
    exact compact_mutation_I2 s days L classes _ h
  · rw [if_neg hf]
    exact pointMutations_I2 days L classes subjects _ s _ h

/-- Witness for `mutate_preserves_qualification` on the empty schedule. -/
theorem mutate_preserves_qualification_witness :
    (i2B emptySched wTeachers ["Monday"] 2
      (wClasses.map SchoolClass.id) = true) ∧
    i2B (mutate ["Monday"] 2 wClasses wSubjects
      (buildTeachersBySubject wSubjects wTeachers) emptySched wRng).1
      wTeachers ["Monday"] 2 (wClasses.map SchoolClass.id) = true :=
  ⟨by decide, mutate_preserves_qualification ["Monday"] 2 wClasses wSubjects
    wTeachers emptySched wRng (by decide)⟩

/-! ### Tournament selection (`GeneticScheduler.selection`, C9) -/

/-- Python's `max(xs, key=lambda x: x[1])` on a nonempty list: scan left to
right, replacing the current best only when the new key is strictly greater,
so the FIRST element attaining the maximum wins.  `none` models the
`ValueError` Python raises on an empty list. -/
def pyMaxBySnd {α β : Type} [LinearOrder β] :
    List (α × β) → Option (α × β)
  | [] => none
  | x :: xs => some (xs.foldl (fun m y => if m.2 < y.2 then y else m) x)

/-- `GeneticScheduler.selection`: sample `min(TOURNAMENT_SIZE, len(population))`
scored individuals without replacement and return the schedule of the best
(`max(tournament, key=lambda x: x[1])[0]`). -/
def selection {α β : Type} [LinearOrder β] (T : ℕ)
    (population : List (α × β)) (r : Rng) : Option α × Rng :=
  let tour := sampleList population (min T population.length) r
  ((pyMaxBySnd tour.1).map Prod.fst, tour.2)

theorem rngShift_rngCons (a : ℕ) (r : Rng) : rngShift (rngCons a r) = r := rfl

theorem sampleList_length {α : Type} :
    ∀ (k : ℕ) (xs : List α) (r : Rng),
      (sampleList xs k r).1.length = min k xs.length
  | 0, xs, r => by cases xs <;> simp [sampleList]
  | k + 1, [], r => by simp [sampleList]
  | k + 1, x :: xs, r => by
      rw [sampleList]
      dsimp only
      rw [List.length_cons, sampleList_length k]
      have hlt : r 0 % (x :: xs).length < (x :: xs).length :=
        Nat.mod_lt _ (by simp)
      have hlen := List.length_eraseIdx_add_one hlt
      simp only [List.length_cons] at hlen ⊢
      omega

theorem eraseIdx_cons_perm {α : Type} :
    ∀ (xs : List α) (i : ℕ) (h : i < xs.length),
      List.Perm (xs[i] :: xs.eraseIdx i) xs
  | x :: xs, 0, _ => by simp
  | x :: xs, i + 1, h => by
      have h0 : i < xs.length := by simpa using h
      simp only [List.getElem_cons_succ, List.eraseIdx_cons_succ]
      exact (List.Perm.swap x (xs.get ⟨i, h0⟩) _).trans
        (List.Perm.cons x (eraseIdx_cons_perm xs i h0))

theorem sampleList_subperm {α : Type} :
    ∀ (k : ℕ) (xs : List α) (r : Rng),
      List.Subperm (sampleList xs k r).1 xs
  | 0, xs, r => by cases xs <;> exact List.nil_subperm
  | k + 1, [], r => List.nil_subperm
  | k + 1, x :: xs, r => by
      rw [sampleList]
      dsimp only
      have hlt : r 0 % (x :: xs).length < (x :: xs).length :=
        Nat.mod_lt _ (by simp)
      rw [List.getD_eq_getElem _ _ hlt]
      have hsub := sampleList_subperm k
        ((x :: xs).eraseIdx (r 0 % (x :: xs).length)) (rngShift r)
      exact ((List.subperm_cons _).mpr hsub).trans
        (eraseIdx_cons_perm _ _ hlt).subperm

theorem sampleList_reaches {α : Type} [DecidableEq α] :
    ∀ (t pop : List α), List.Subperm t pop →
      ∃ r : Rng, (sampleList pop t.length r).1 = t
  | [], pop, _ => by
      refine ⟨fun _ => 0, ?_⟩
      cases pop <;> rfl
  | a :: t, pop, h => by
      have ha : a ∈ pop := h.subset (List.mem_cons_self a t)
      have ht : List.Subperm t (pop.erase a) := by
        have h2 := List.Subperm.erase a h
        rwa [List.erase_cons_head] at h2
      obtain ⟨r0, hr0⟩ := sampleList_reaches t (pop.erase a) ht
      refine ⟨rngCons (pop.indexOf a) r0, ?_⟩
      cases pop with
      | nil => cases ha
      | cons p ps =>
          have hlt : (p :: ps).indexOf a < (p :: ps).length :=
            List.indexOf_lt_length.mpr ha
          show (p :: ps).getD
              (rngCons ((p :: ps).indexOf a) r0 0 % (p :: ps).length) p ::
            (sampleList ((p :: ps).eraseIdx
              (rngCons ((p :: ps).indexOf a) r0 0 % (p :: ps).length))
              t.length (rngShift (rngCons ((p :: ps).indexOf a) r0))).1 =
            a :: t
          have h0 : rngCons ((p :: ps).indexOf a) r0 0 % (p :: ps).length =
              (p :: ps).indexOf a := Nat.mod_eq_of_lt hlt
          rw [h0, List.getD_eq_getElem _ _ hlt, List.getElem_indexOf hlt,
            List.eraseIdx_indexOf_eq_erase, rngShift_rngCons, hr0]

theorem foldlMax_first {α β : Type} [LinearOrder β] :
    ∀ (xs : List (α × β)) (x : α × β),
      ∃ pre post,
        x :: xs = pre ++
          (xs.foldl (fun m y => if m.2 < y.2 then y else m) x) :: post ∧
        (∀ q ∈ pre,
          q.2 < (xs.foldl (fun m y => if m.2 < y.2 then y else m) x).2) ∧
        (∀ q ∈ x :: xs,
          q.2 ≤ (xs.foldl (fun m y => if m.2 < y.2 then y else m) x).2)
  | [], x => ⟨[], [], rfl, by simp, by simp⟩
  | y :: ys, x => by
      rw [List.foldl_cons]
      obtain ⟨pre, post, hdec, hpre, hub⟩ :=
        foldlMax_first ys (if x.2 < y.2 then y else x)
      by_cases hxy : x.2 < y.2
      · rw [if_pos hxy] at hdec hpre hub ⊢
        refine ⟨x :: pre, post, by rw [List.cons_append, hdec], ?_, ?_⟩
        · intro q hq
          rcases List.mem_cons.mp hq with hq | hq
          · subst hq
            exact lt_of_lt_of_le hxy (hub y (List.mem_cons_self y ys))
          · exact hpre q hq
        · intro q hq
          rcases List.mem_cons.mp hq with hq | hq
          · subst hq
            exact le_of_lt (lt_of_lt_of_le hxy
              (hub y (List.mem_cons_self y ys)))
          · exact hub q hq
      · rw [if_neg hxy] at hdec hpre hub ⊢
        have hyx : y.2 ≤ x.2 := le_of_not_lt hxy
        cases pre with
        | nil =>
            simp only [List.nil_append] at hdec
            have hx : x = ys.foldl (fun m y => if m.2 < y.2 then y else m)
                x := ((List.cons.injEq _ _ _ _).mp hdec).1
            refine ⟨[], y :: ys, ?_, by simp, ?_⟩
            · rw [List.nil_append, ← hx]
            · intro q hq
              rcases List.mem_cons.mp hq with hq | hq
              · rw [hq, ← hx]
              · rcases List.mem_cons.mp hq with hq | hq
                · rw [hq, ← hx]; exact hyx
                · exact hub q (List.mem_cons_of_mem _ hq)
        | cons z pre =>
            rw [List.cons_append] at hdec
            have hz1 : x = z := ((List.cons.injEq _ _ _ _).mp hdec).1
            have hz2 : ys = pre ++
                (ys.foldl (fun m y => if m.2 < y.2 then y else m) x) ::
                  post := ((List.cons.injEq _ _ _ _).mp hdec).2
            have hxlt : x.2 <
                (ys.foldl (fun m y => if m.2 < y.2 then y else m) x).2 :=
              hz1 ▸ hpre z (List.mem_cons_self z pre)
            refine ⟨x :: y :: pre, post, ?_, ?_, ?_⟩
            · rw [List.cons_append, List.cons_append, ← hz2]
            · intro q hq
              rcases List.mem_cons.mp hq with hq | hq
              · rw [hq]; exact hxlt
              · rcases List.mem_cons.mp hq with hq | hq
                · rw [hq]; exact lt_of_le_of_lt hyx hxlt
                · exact hpre q (List.mem_cons_of_mem _ hq)
            · intro q hq
              rcases List.mem_cons.mp hq with hq | hq
              · rw [hq]
                exact hub x (List.mem_cons_self x ys)
              · rcases List.mem_cons.mp hq with hq | hq
                · rw [hq]
                  exact le_trans hyx (hub x (List.mem_cons_self x ys))
                · exact hub q (List.mem_cons_of_mem _ hq)

/-- C9: tournament selection draws `min(T, |pop|)` scored individuals without
replacement (the whole population, up to order, when it is smaller than `T`),
every such draw is reachable, and the returned individual is the first
sampled one attaining the maximum fitness. -/
theorem selection_spec {α : Type} [DecidableEq α] (T : ℕ)
    (pop : List (α × ℚ)) (r : Rng) (hT : 1 ≤ T) (hpop : pop ≠ []) :
    (sampleList pop (min T pop.length) r).1.length = min T pop.length ∧
    List.Subperm (sampleList pop (min T pop.length) r).1 pop ∧
    (pop.length ≤ T →
      List.Perm (sampleList pop (min T pop.length) r).1 pop) ∧
    (∀ t : List (α × ℚ), List.Subperm t pop → t.length = min T pop.length →
      ∃ r2 : Rng, (sampleList pop (min T pop.length) r2).1 = t) ∧
    ∃ m pre post,
      (sampleList pop (min T pop.length) r).1 = pre ++ m :: post ∧
      (∀ q ∈ pre, q.2 < m.2) ∧
      (∀ q ∈ (sampleList pop (min T pop.length) r).1, q.2 ≤ m.2) ∧
      selection T pop r =
        (some m.1, (sampleList pop (min T pop.length) r).2) := by
  have hlen : (sampleList pop (min T pop.length) r).1.length =
      min T pop.length := by
    rw [sampleList_length]
    omega
  have hsub := sampleList_subperm (min T pop.length) pop r
  refine ⟨hlen, hsub, ?_, ?_, ?_⟩
  · intro hle
    apply hsub.perm_of_length_le
    rw [hlen]
    omega
  · intro t htsub htlen
    obtain ⟨r2, hr2⟩ := sampleList_reaches t pop htsub
    exact ⟨r2, by rw [← htlen, hr2]⟩
  · have hpos : 0 < pop.length := List.length_pos.mpr hpop
    have hpos2 : 0 < (sampleList pop (min T pop.length) r).1.length := by
      rw [hlen]; omega
    cases htour : (sampleList pop (min T pop.length) r).1 with
    | nil => rw [htour] at hpos2; cases hpos2
    | cons h rest =>
        obtain ⟨pre, post, hdec, hpre, hub⟩ := foldlMax_first rest h
        refine ⟨rest.foldl (fun m y => if m.2 < y.2 then y else m) h,
          pre, post, ?_, ?_, ?_, ?_⟩
        · exact hdec
        · exact hpre
        · exact hub
        · rw [selection]
          rw [htour, pyMaxBySnd]
          rfl

/-- Witness for `selection_spec` at a concrete one-individual population. -/
theorem selection_spec_witness :
    (1 ≤ 5 ∧ ([((1 : ℕ), (0 : ℚ))] : List (ℕ × ℚ)) ≠ []) ∧
    ((sampleList [((1 : ℕ), (0 : ℚ))]
        (min 5 ([((1 : ℕ), (0 : ℚ))] : List (ℕ × ℚ)).length)
        (fun _ => 0)).1.length =
      min 5 ([((1 : ℕ), (0 : ℚ))] : List (ℕ × ℚ)).length ∧
    List.Subperm (sampleList [((1 : ℕ), (0 : ℚ))]
        (min 5 ([((1 : ℕ), (0 : ℚ))] : List (ℕ × ℚ)).length)
        (fun _ => 0)).1 [((1 : ℕ), (0 : ℚ))] ∧
    (([((1 : ℕ), (0 : ℚ))] : List (ℕ × ℚ)).length ≤ 5 →
      List.Perm (sampleList [((1 : ℕ), (0 : ℚ))]
          (min 5 ([((1 : ℕ), (0 : ℚ))] : List (ℕ × ℚ)).length)
          (fun _ => 0)).1 [((1 : ℕ), (0 : ℚ))]) ∧
    (∀ t : List (ℕ × ℚ), List.Subperm t [((1 : ℕ), (0 : ℚ))] →
      t.length = min 5 ([((1 : ℕ), (0 : ℚ))] : List (ℕ × ℚ)).length →
      ∃ r2 : Rng, (sampleList [((1 : ℕ), (0 : ℚ))]
        (min 5 ([((1 : ℕ), (0 : ℚ))] : List (ℕ × ℚ)).length) r2).1 = t) ∧
    ∃ m pre post,
      (sampleList [((1 : ℕ), (0 : ℚ))]
        (min 5 ([((1 : ℕ), (0 : ℚ))] : List (ℕ × ℚ)).length)
        (fun _ => 0)).1 = pre ++ m :: post ∧
      (∀ q ∈ pre, q.2 < m.2) ∧
      (∀ q ∈ (sampleList [((1 : ℕ), (0 : ℚ))]
        (min 5 ([((1 : ℕ), (0 : ℚ))] : List (ℕ × ℚ)).length)
        (fun _ => 0)).1, q.2 ≤ m.2) ∧
      selection 5 [((1 : ℕ), (0 : ℚ))] (fun _ => 0) =
        (some m.1, (sampleList [((1 : ℕ), (0 : ℚ))]
          (min 5 ([((1 : ℕ), (0 : ℚ))] : List (ℕ × ℚ)).length)
          (fun _ => 0)).2)) :=
  ⟨⟨by decide, by decide⟩,
    selection_spec 5 [((1 : ℕ), (0 : ℚ))] (fun _ => 0)
      (by decide) (by decide)⟩

/-! ### The GA main loop (`GeneticScheduler.generate_schedule`, C6) -/

/-- `GeneticScheduler.crossover`: pick `crossover_point = randint(1, len(DAYS)-1)`
and exchange the two parents' day maps for every day index at or after it. -/
def crossover (days : List String) (p1 p2 : Sched) (r : Rng) :
    Sched × Sched × Rng :=
  let cp := randint 1 (days.length - 1) r
  let sw := (List.range days.length).foldl
    (fun (cs : Sched × Sched) i =>
      if cp.1 ≤ i then
        ((fun d l c => if d = days.getD i "" then cs.2 d l c else cs.1 d l c),
         (fun d l c => if d = days.getD i "" then cs.1 d l c else cs.2 d l c))
      else cs) (p1, p2)
  (sw.1, sw.2, cp.2)

/-- The offspring `while len(next_population) < POPULATION_SIZE` loop, with
fuel (each iteration appends at least one child, so `popSize` iterations
suffice).  The `getD emptySched` defaults are unreachable for a nonempty
population (`selection` then returns `some`). -/
noncomputable def offspringLoop (T : ℕ) (mr : ℚ) (days : List String)
    (L : ℕ) (classes : List SchoolClass) (subjects : List Subject)
    (teachers : List Teacher) (popSize : ℕ)
    (population : List (Sched × ℝ)) :
    ℕ → List (Sched × ℝ) → Rng → List (Sched × ℝ) × Rng
  | 0, acc, r => (acc, r)
  | fuel + 1, acc, r =>
      if acc.length < popSize then
        let p1 := selection T population r
        let p2 := selection T population p1.2
        let cc := crossover days (p1.1.getD emptySched)
          (p2.1.getD emptySched) p2.2
        let m1 := randFloat cc.2.2
        let c1 := if m1.1 < mr then
            mutate days L classes subjects
              (buildTeachersBySubject subjects teachers) cc.1 m1.2
          else (cc.1, m1.2)
        let m2 := randFloat c1.2
        let c2 := if m2.1 < mr then
            mutate days L classes subjects
              (buildTeachersBySubject subjects teachers) cc.2.1 m2.2
          else (cc.2.1, m2.2)
        let f1 := calculate_schedule_fitness c1.1 days L teachers classes
          (qualLookup teachers) (classes.map SchoolClass.id) 2
        let f2 := calculate_schedule_fitness c2.1 days L teachers classes
          (qualLookup teachers) (classes.map SchoolClass.id) 2
        let acc1 := acc ++ [(c1.1, f1)]
        let acc2 := if acc1.length < popSize then acc1 ++ [(c2.1, f2)]
          else acc1
        offspringLoop T mr days L classes subjects teachers popSize
          population fuel acc2 c2.2
      else (acc, r)

/-- One generation of the evolution loop: stable sort by fitness descending,
track the best individual seen (strict improvement only), keep the top 10%
(elitism) and refill with offspring.  State:
`(population, best_schedule, best_fitness, best_generation, rng)`. -/
noncomputable def generationStep (T popSize : ℕ) (mr : ℚ)
    (days : List String) (L : ℕ) (classes : List SchoolClass)
    (subjects : List Subject) (teachers : List Teacher)
    (st : List (Sched × ℝ) × Option Sched × ℝ × ℕ × Rng)
    (generation : ℕ) :
    List (Sched × ℝ) × Option Sched × ℝ × ℕ × Rng :=
  let sorted := st.1.mergeSort (fun a b => decide (b.2 ≤ a.2))
  let top := sorted.headD (emptySched, 0)
  let best : Option Sched × ℝ × ℕ :=
    if st.2.2.1 < top.2 then (some top.1, top.2, generation)
    else (st.2.1, st.2.2.1, st.2.2.2.1)
  let off := offspringLoop T mr days L classes subjects teachers popSize
    sorted popSize (sorted.take (popSize / 10)) st.2.2.2.2
  (off.1, best.1, best.2.1, best.2.2, off.2)

/-- `GeneticScheduler.generate_schedule`: initial population, `generations`
evolution rounds, then final compaction of the best schedule ever seen —
or `({}, 0.0, 0)` (here `(none, 0, best_generation)`) when `best_schedule`
is still `None`. -/
noncomputable def generate_schedule (popSize generations T : ℕ) (mr : ℚ)
    (days : List String) (L : ℕ) (classes : List SchoolClass)
    (subjects : List Subject) (teachers : List Teacher) (r : Rng) :
    Option Sched × ℝ × ℕ :=
  let tbs := buildTeachersBySubject subjects teachers
  let init := initialize_population popSize classes subjects tbs days L r
  let population := init.1.map (fun s =>
    (s, calculate_schedule_fitness s days L teachers classes
      (qualLookup teachers) (classes.map SchoolClass.id) 2))
  let final := (List.range generations).foldl
    (generationStep T popSize mr days L classes subjects teachers)
    (population, none, -1, 0, init.2)
  match final.2.1 with
  | some b =>
      let cb := compact_schedule_full b days L classes
      (some cb, calculate_schedule_fitness cb days L teachers classes
        (qualLookup teachers) (classes.map SchoolClass.id) 2,
        final.2.2.2.1)
  | none => (none, 0, final.2.2.2.1)

/-- C6 (amended): with `GENERATIONS = 0` the evolution loop never runs, so
`best_schedule` is still `None` and `generate_schedule` returns the fallback
`({}, 0.0, 0)` — it does NOT return the best of the initial population. -/
theorem generate_schedule_zero_generations (popSize T : ℕ) (mr : ℚ)
    (days : List String) (L : ℕ) (classes : List SchoolClass)
    (subjects : List Subject) (teachers : List Teacher) (r : Rng) :
    generate_schedule popSize 0 T mr days L classes subjects teachers r =
      (none, 0, 0) := rfl

/-- Counterexample to C6 as claimed: on a well-formed nonempty input the
initial population is nonempty (so a best initial individual exists and the
claimed return value would be `some` of its compaction), yet the function
returns the `(none, 0, 0)` fallback. -/
theorem generate_schedule_zero_not_best_of_initial :
    (initialize_population 1 wClasses wSubjects
      (buildTeachersBySubject wSubjects wTeachers) ["Monday"] 2 wRng).1 ≠
        [] ∧
    (generate_schedule 1 0 5 (1/10) ["Monday"] 2 wClasses wSubjects
      wTeachers wRng).1 = none ∧
    ∀ σ ∈ (initialize_population 1 wClasses wSubjects
        (buildTeachersBySubject wSubjects wTeachers) ["Monday"] 2 wRng).1,
      (generate_schedule 1 0 5 (1/10) ["Monday"] 2 wClasses wSubjects
        wTeachers wRng).1 ≠
          some (compact_schedule_full σ ["Monday"] 2 wClasses) := by
  refine ⟨List.cons_ne_nil _ _, rfl, ?_⟩
  intro σ _ hcontra
  exact Option.noConfusion hcontra

/-! ### The backend adapter (`core_ga_adapter/adapter.py`, C4 and C5)

The adapter imports the GA from the `core.ga` package, which is not among
the repository's files; the `src/services/ga` modules embedded above are
its in-repo mirror and stand in for it here. -/

/-- A Python error surfaced to the adapter's caller (messages of the
`TypeError`/`KeyError` raised deep in the scheduler are elided). -/
inductive PyErr where
  | valueError (msg : String)
  | typeError
  | keyError
  deriving DecidableEq, Repr

/-- A present payload field as Python sees it: a proper list of entities, or
some other non-list value.  `payload.get(k)` returning `None` — key missing
or explicitly `None` — is the surrounding `Option.none`. -/
inductive PyVal (α : Type) where
  | ok (xs : List α)
  | notAList
  deriving DecidableEq, Repr

/-- The dataset payload handed to `generate_timetable`. -/
structure Payload where
  subjects : Option (PyVal Subject)
  teachers : Option (PyVal Teacher)
  classes : Option (PyVal SchoolClass)

/-- The engine config.  `_apply_ga_config` reads the four GA keys; `seed`
and `run_id` are carried but never applied to anything the result depends
on (`run_id` is only logged). -/
structure GAConfig where
  population_size : Option ℕ
  generations : Option ℕ
  mutation_rate : Option ℚ
  tournament_size : Option ℕ
  seed : Option ℕ
  run_id : Option ℕ

/-- `GeneticScheduler.DAYS`. -/
def DAYS : List String :=
  ["Monday", "Tuesday", "Wednesday", "Thursday", "Friday"]

/-- `GeneticScheduler.LESSONS_PER_DAY`. -/
def LESSONS_PER_DAY : ℕ := 6

/-- `DictDataService.__init__`: raise the invalid-dataset `ValueError` iff
any of the three `payload.get(...)` results `is None`; the stored values are
otherwise NOT validated, so a non-list passes. -/
def DictDataService (p : Payload) :
    Except PyErr (PyVal Subject × PyVal Teacher × PyVal SchoolClass) :=
  match p.subjects, p.teachers, p.classes with
  | some s, some t, some c => .ok (s, t, c)
  | _, _, _ => .error (.valueError
      "Dataset payload must include 'subjects', 'teachers', and 'classes'.")

/-- `GeneticScheduler.__init__` loading from the data service: building the
by-id and by-subject lookup dicts iterates the three stored values, and
iterating a non-list raises `TypeError`. -/
def schedulerInitData (s : PyVal Subject) (t : PyVal Teacher)
    (c : PyVal SchoolClass) :
    Except PyErr (List Subject × List Teacher × List SchoolClass) :=
  match s, t, c with
  | .ok ss, .ok ts, .ok cs => .ok (ss, ts, cs)
  | _, _, _ => .error .typeError

/-- `_apply_ga_config`: `population_size`, `generations`, `mutation_rate`
and `tournament_size` override the class defaults `50, 200, 0.1, 5`; no
other key — in particular not `seed` — is read. -/
def applyGAConfig (cfg : GAConfig) : ℕ × ℕ × ℚ × ℕ :=
  (cfg.population_size.getD 50, cfg.generations.getD 200,
   cfg.mutation_rate.getD (1/10), cfg.tournament_size.getD 5)

/-- The rendered result (`_build_result_payload`): the schedule mapping with
the fitness, winning generation and statistics.  The per-cell name rendering
and the 2-decimal display rounding of the fitness are omitted — the claims
below concern the error behaviour and which data flows through, not the
rendering. -/
structure ResultPayload where
  schedule : Option Sched
  fitness_score : ℝ
  generation : ℕ
  total_lessons : ℕ
  teacher_conflicts : ℕ
  teacher_gaps : ℕ

/-- `_build_result_payload`: the statistics index `schedule[day][lesson]`
for every day and slot, so the empty-dict fallback `{}` (here `none`)
raises `KeyError` as soon as there is at least one day (and slot 1). -/
noncomputable def buildResultPayload (schedule : Option Sched)
    (teachers : List Teacher) (classes : List SchoolClass) (fitness : ℝ)
    (generation : ℕ) : Except PyErr ResultPayload :=
  match schedule with
  | none =>
      if DAYS = [] ∨ LESSONS_PER_DAY = 0 then
        .ok ⟨none, fitness, generation, 0, 0, 0⟩
      else .error .keyError
  | some s => .ok ⟨some s, fitness, generation,
      count_total_lessons s DAYS LESSONS_PER_DAY
        (classes.map SchoolClass.id),
      count_teacher_conflicts s (qualLookup teachers) DAYS LESSONS_PER_DAY
        (classes.map SchoolClass.id),
      count_teacher_gaps s teachers DAYS LESSONS_PER_DAY
        (classes.map SchoolClass.id)⟩

/-- `generate_timetable`: validate the payload (`DictDataService`), build
the scheduler, apply the config — `seed` is never read and the global RNG
is never seeded — run the GA on the ambient random stream and render the
result. -/
noncomputable def generate_timetable (p : Payload) (cfg : GAConfig)
    (r : Rng) : Except PyErr ResultPayload := do
  let fields ← DictDataService p
  let data ← schedulerInitData fields.1 fields.2.1 fields.2.2
  let params := applyGAConfig cfg
  let out := generate_schedule params.1 params.2.1 params.2.2.2
    params.2.2.1 DAYS LESSONS_PER_DAY data.2.2 data.1 data.2.1 r
  buildResultPayload out.1 data.2.1 data.2.2 out.2.1 out.2.2

/-- C4: the adapter ignores `seed` — `_apply_ga_config` reads only the four
GA keys and nothing ever seeds the random source, so the output is a
function of the ambient random stream alone and is identical across any two
seed values.  Reproducibility for a fixed seed therefore fails: two runs
consume different states of the unseeded global RNG. -/
theorem generate_timetable_ignores_seed (p : Payload) (ps gs : Option ℕ)
    (mr : Option ℚ) (ts s1 s2 rid : Option ℕ) (r : Rng) :
    generate_timetable p ⟨ps, gs, mr, ts, s1, rid⟩ r =
      generate_timetable p ⟨ps, gs, mr, ts, s2, rid⟩ r := rfl

/-- C5 (amended): a payload whose `subjects`, `teachers` or `classes` is
missing (or `None`) is rejected with the invalid-dataset `ValueError`
before any schedule work. -/
theorem generate_timetable_missing_field (p : Payload) (cfg : GAConfig)
    (r : Rng)
    (h : p.subjects = none ∨ p.teachers = none ∨ p.classes = none) :
    generate_timetable p cfg r = .error (.valueError
      "Dataset payload must include 'subjects', 'teachers', and 'classes'.")
    := by
  have hD : DictDataService p = .error (.valueError
      "Dataset payload must include 'subjects', 'teachers', and 'classes'.")
    := by
    cases hs : p.subjects with
    | none => rw [DictDataService, hs]
    | some s =>
        cases ht : p.teachers with
        | none => rw [DictDataService, hs, ht]
        | some t =>
            cases hc : p.classes with
            | none => rw [DictDataService, hs, ht, hc]
            | some c => simp [hs, ht, hc] at h
  rw [generate_timetable, hD]
  rfl

/-- Witness for `generate_timetable_missing_field`: a payload with
`subjects` missing. -/
theorem generate_timetable_missing_field_witness :
    ((⟨none, some (.ok []), some (.ok [])⟩ : Payload).subjects = none ∨
      (⟨none, some (.ok []), some (.ok [])⟩ : Payload).teachers = none ∨
      (⟨none, some (.ok []), some (.ok [])⟩ : Payload).classes = none) ∧
    generate_timetable ⟨none, some (.ok []), some (.ok [])⟩
      ⟨none, none, none, none, none, none⟩ (fun _ => 0) =
      .error (.valueError
        "Dataset payload must include 'subjects', 'teachers', and 'classes'.")
    :=
  ⟨Or.inl rfl, generate_timetable_missing_field _ _ _ (Or.inl rfl)⟩

/-- Counterexample to C5 as claimed: a payload whose `subjects` field is a
non-list passes the `is None` validation and the run fails later with a
`TypeError` from the scheduler's init — not the invalid-dataset error — so
non-list fields are not rejected up front and other user-visible errors do
originate from the core. -/
theorem nonlist_field_not_invalid_dataset :
    generate_timetable ⟨some .notAList, some (.ok []), some (.ok [])⟩
      ⟨none, none, none, none, none, none⟩ (fun _ => 0) =
      .error .typeError ∧
    (.error .typeError : Except PyErr ResultPayload) ≠ .error (.valueError
      "Dataset payload must include 'subjects', 'teachers', and 'classes'.")
    := by
  refine ⟨rfl, ?_⟩
  intro hcontra
  exact PyErr.noConfusion (Except.error.inj hcontra)
